import Mathlib

/-!
# ScaleLink: the URL resolution service

A shallow embedding of `internal/services/url_service.go` and of the cache
wrapper `internal/redis/redis.go`, with the two collaborators (the relational
store and the key-value cache) as explicit state.

* The store is the list of rows of table `urls` (`internal/database/database.go`).
* The cache is an association list from keys to entries carrying a deadline.
* Every call runs in an `Env`: the clock, the answer of the random source, the
  URL parser of the standard library, and which collaborator calls fail.
* `Sys.trace` is a ghost log of the collaborator calls, oldest first.
-/

set_option autoImplicit false

namespace ScaleLink

/-! ## Time -/

/-- Instants and durations, in nanoseconds (the unit of `time.Duration`). -/
abbrev Time := Nat

/-- The duration `time.Hour`. -/
def hour : Nat := 3600 * 1000000000

/-- The TTL `24*time.Hour` that `SetURL` passes to `SetWithTTL`. -/
def urlTTL : Nat := 24 * hour

/-! ## Errors -/

/-- The two errors of `validateURL`. -/
inductive URLErr where
  /-- `invalid URL format` -/
  | invalidFormat
  /-- `URL must have scheme and host` -/
  | missingSchemeOrHost
deriving DecidableEq, Repr

/-- The two errors of `validateShortCode`. -/
inductive CodeErr where
  /-- `short code must be between 3 and 10 characters` -/
  | badLength
  /-- `short code can only contain letters, numbers, and hyphens` -/
  | badChar
deriving DecidableEq, Repr

/-- Errors reported by the store driver. -/
inductive DBErr where
  /-- connection-level failure -/
  | unavailable
  /-- violation of the `UNIQUE` constraint on `short_code` -/
  | duplicateKey
deriving DecidableEq, Repr

/-- Errors reported by the cache client. -/
inductive RedisErr where
  /-- `redis.Nil`: the key does not exist -/
  | nil
  /-- transport failure -/
  | unavailable
  /-- `INCR` on a value that is not an integer -/
  | notInteger
deriving DecidableEq, Repr

/-- The error of `getURLFromDB`: its own message for `sql.ErrNoRows`, any other
driver error unchanged. -/
inductive LookupErr where
  /-- `URL not found or expired` -/
  | notFoundOrExpired
  /-- the driver error, returned as is -/
  | driver (e : DBErr)
deriving DecidableEq, Repr

/-- The errors `CreateShortURL` and `GetOriginalURL` return, one constructor per
`fmt.Errorf` site; `panicIndex` stands for the run-time panic of an out-of-range
index in `generateShortCode`. -/
inductive Err where
  /-- `invalid URL: %w` -/
  | invalidURL (e : URLErr)
  /-- `failed to generate short code: %w` -/
  | generateFailed
  /-- run-time panic: index out of range -/
  | panicIndex
  /-- `invalid custom code: %w` -/
  | invalidCustomCode (e : CodeErr)
  /-- `failed to check short code: %w` -/
  | checkFailed (e : DBErr)
  /-- `short code already exists` -/
  | alreadyExists
  /-- `failed to create URL in database: %w` -/
  | createFailed (e : DBErr)
  /-- `URL not found: %w` -/
  | urlNotFound (e : LookupErr)
deriving DecidableEq, Repr

/-! ## Data model -/

/-- The fields of `url.URL` that `validateURL` reads. -/
structure ParsedURL where
  Scheme : String
  Host : String
deriving DecidableEq, Repr

/-- `models.CreateURLRequest`. -/
structure CreateURLRequest where
  OriginalURL : String
  Title : String
  Description : String
  CustomCode : String
  ExpiresAt : Option Time
deriving DecidableEq, Repr

/-- `models.CreateURLResponse`. -/
structure CreateURLResponse where
  ShortCode : String
  OriginalURL : String
  ShortURL : String
  CreatedAt : Time
deriving DecidableEq, Repr

/-- A row of table `urls`; `id`, `updated_at` and `created_by` are never read by
the service and are left out. -/
structure URLRow where
  short_code : String
  original_url : String
  title : String
  description : String
  created_at : Time
  is_active : Bool
  expires_at : Option Time
deriving DecidableEq, Repr

/-- A cache value: a string written by `SET`, or a counter maintained by `INCR`. -/
inductive RVal where
  | str (s : String)
  | int (n : Int)
deriving DecidableEq, Repr

/-- A cache entry: the value and the instant at which it expires (`none`: no TTL). -/
structure REntry where
  val : RVal
  deadline : Option Time
deriving DecidableEq, Repr

/-- The collaborator calls recorded in the ghost trace. -/
inductive Call where
  | randRead
  | dbExists (code : String)
  | dbInsert (code : String) (url : String)
  | dbSelectURL (code : String)
  | redisGet (key : String)
  | redisSet (key : String) (value : String) (ttl : Nat)
  | redisIncr (key : String)
deriving DecidableEq, Repr

/-- The state of the two collaborators, and the calls made so far. -/
structure Sys where
  db : List URLRow
  redis : List (String × REntry)
  trace : List Call
deriving DecidableEq, Repr

/-- What a single service call cannot decide itself. -/
structure Env where
  /-- the clock (`NOW()` of the store, the clock of the cache, `time.Now()`) -/
  now : Time
  /-- `url.Parse` of the standard library; `none` is a parse error -/
  parse : String → Option ParsedURL
  /-- the six bytes `rand.Read` writes into the buffer; `none` is its error -/
  rand : Option (Fin 6 → Fin 256)
  /-- the cache `GET` fails in transport -/
  redisGetDown : Bool
  /-- the cache `SET` fails in transport -/
  redisSetDown : Bool
  /-- the cache `INCR` fails in transport -/
  redisIncrDown : Bool
  /-- the `SELECT EXISTS` query fails -/
  dbExistsDown : Bool
  /-- the `INSERT` is rejected by the store for a reason of its own -/
  dbInsertErr : Option DBErr
  /-- the `SELECT original_url` query fails -/
  dbQueryDown : Bool

/-- Append a call to the ghost trace. -/
def Sys.log (s : Sys) (c : Call) : Sys :=
  { s with trace := s.trace ++ [c] }

/-! ## The cache client (`internal/redis/redis.go`) -/

/-- An entry is visible until its deadline. -/
def REntry.alive (now : Time) (e : REntry) : Bool :=
  match e.deadline with
  | none => true
  | some d => decide (now < d)

/-- The live entry under `key`, if any. -/
def lookupKey (now : Time) (kv : List (String × REntry)) (key : String) : Option REntry :=
  match kv.lookup key with
  | none => none
  | some e => if e.alive now then some e else none

/-- Replace whatever is under `key` by `e`. -/
def putKey (kv : List (String × REntry)) (key : String) (e : REntry) : List (String × REntry) :=
  (key, e) :: kv.filter (fun p => p.1 != key)

/-- `fmt.Sprintf("url:%s", shortCode)`. -/
def urlKey (shortCode : String) : String := "url:" ++ shortCode

/-- `fmt.Sprintf("clicks:%s", shortCode)`. -/
def clicksKey (shortCode : String) : String := "clicks:" ++ shortCode

/-- `Client.Get`: the string stored under `key`, `redis.Nil` when absent. -/
def Get (env : Env) (s : Sys) (key : String) : Except RedisErr String × Sys :=
  let s1 := s.log (.redisGet key)
  if env.redisGetDown then (.error .unavailable, s1)
  else
    match lookupKey env.now s.redis key with
    | none => (.error .nil, s1)
    | some e =>
      match e.val with
      | .str v => (.ok v, s1)
      | .int n => (.ok (toString n), s1)

/-- `Client.SetWithTTL`. -/
def SetWithTTL (env : Env) (s : Sys) (key value : String) (ttl : Nat) : Except RedisErr Unit × Sys :=
  let s1 := s.log (.redisSet key value ttl)
  if env.redisSetDown then (.error .unavailable, s1)
  else (.ok (), { s1 with redis := putKey s.redis key ⟨.str value, some (env.now + ttl)⟩ })

/-- `Client.Increment`: `INCR` creates the counter at 1, keeps the TTL of an
existing one, and rejects a value that is not an integer. -/
def Increment (env : Env) (s : Sys) (key : String) : Except RedisErr Int × Sys :=
  let s1 := s.log (.redisIncr key)
  if env.redisIncrDown then (.error .unavailable, s1)
  else
    match lookupKey env.now s.redis key with
    | none => (.ok 1, { s1 with redis := putKey s.redis key ⟨.int 1, none⟩ })
    | some e =>
      match e.val with
      | .int n => (.ok (n + 1), { s1 with redis := putKey s.redis key ⟨.int (n + 1), e.deadline⟩ })
      | .str _ => (.error .notInteger, s1)

/-- `Client.SetURL`. -/
def SetURL (env : Env) (s : Sys) (shortCode originalURL : String) : Except RedisErr Unit × Sys :=
  SetWithTTL env s (urlKey shortCode) originalURL urlTTL

/-- `Client.GetURL`. -/
def GetURL (env : Env) (s : Sys) (shortCode : String) : Except RedisErr String × Sys :=
  Get env s (urlKey shortCode)

/-- `Client.IncrementClickCount`. -/
def IncrementClickCount (env : Env) (s : Sys) (shortCode : String) : Except RedisErr Unit × Sys :=
  match Increment env s (clicksKey shortCode) with
  | (.ok _, s1) => (.ok (), s1)
  | (.error e, s1) => (.error e, s1)

/-! ## Helper methods of the service -/

/-- `URLService.validateURL`. -/
def validateURL (parse : String → Option ParsedURL) (originalURL : String) : Except URLErr Unit :=
  match parse originalURL with
  | none => .error .invalidFormat
  | some parsedURL =>
    if parsedURL.Scheme == "" || parsedURL.Host == "" then .error .missingSchemeOrHost
    else .ok ()

/-- The character test of `validateShortCode`, on the code point of the rune. -/
def validCodeChar (char : Char) : Bool :=
  (decide ('a'.toNat ≤ char.toNat) && decide (char.toNat ≤ 'z'.toNat))
    || (decide ('A'.toNat ≤ char.toNat) && decide (char.toNat ≤ 'Z'.toNat))
    || (decide ('0'.toNat ≤ char.toNat) && decide (char.toNat ≤ '9'.toNat))
    || char == '-'

/-- `URLService.validateShortCode`: `len` counts bytes, `range` visits runes. -/
def validateShortCode (shortCode : String) : Except CodeErr Unit :=
  if shortCode.utf8ByteSize < 3 || shortCode.utf8ByteSize > 10 then .error .badLength
  else if shortCode.toList.all validCodeChar then .ok ()
  else .error .badChar

/-- The constant `charset` of `generateShortCode`. -/
def charset : List Char :=
  "abcdefghijklmnopqrstuvwxyzABCDEFGHIJKLMNOPQRSTUVWXYZ0123456789".toList

/-- The expression `charset[b%byte(len(charset))]`: `none` is an index out of range. -/
def charsetAt (b : Fin 256) : Option Char :=
  charset[b.val % (charset.length % 256)]?

/-- The loop of `generateShortCode` over the buffer, byte by byte. -/
def encodeBytes : List (Fin 256) → Option (List Char)
  | [] => some []
  | b :: bs =>
    match charsetAt b with
    | none => none
    | some c =>
      match encodeBytes bs with
      | none => none
      | some cs => some (c :: cs)

/-- The buffer of length 6 after `rand.Read`. -/
def bufferOf (r : Fin 6 → Fin 256) : List (Fin 256) :=
  (List.finRange 6).map r

/-- `URLService.generateShortCode`. -/
def generateShortCode (env : Env) (s : Sys) : Except Err String × Sys :=
  let s1 := s.log .randRead
  match env.rand with
  | none => (.error .generateFailed, s1)
  | some r =>
    match encodeBytes (bufferOf r) with
    | none => (.error .panicIndex, s1)
    | some cs => (.ok (String.mk cs), s1)

/-- `URLService.shortCodeExists`. -/
def shortCodeExists (env : Env) (s : Sys) (shortCode : String) : Except DBErr Bool × Sys :=
  let s1 := s.log (.dbExists shortCode)
  if env.dbExistsDown then (.error .unavailable, s1)
  else (.ok (s.db.any (fun r => r.short_code == shortCode)), s1)

/-- `URLService.createURLInDB`: the row gets the column defaults of the table
(`created_at` the current time, `is_active` true); the `UNIQUE` constraint on
`short_code` rejects a second row with the same code. Every other way the store
can refuse the statement (a lost connection, a value too long for its column, a
duplicate inserted by a concurrent request) is `env.dbInsertErr`. -/
def createURLInDB (env : Env) (s : Sys) (req : CreateURLRequest) (shortCode : String) :
    Except DBErr Unit × Sys :=
  let s1 := s.log (.dbInsert shortCode req.OriginalURL)
  match env.dbInsertErr with
  | some e => (.error e, s1)
  | none =>
    if s.db.any (fun r => r.short_code == shortCode) then (.error .duplicateKey, s1)
    else
      (.ok (), { s1 with db := s.db ++ [{ short_code := shortCode,
                                           original_url := req.OriginalURL,
                                           title := req.Title,
                                           description := req.Description,
                                           created_at := env.now,
                                           is_active := true,
                                           expires_at := req.ExpiresAt }] })

/-- The `WHERE` clause of `getURLFromDB`. -/
def liveRow (now : Time) (shortCode : String) (r : URLRow) : Bool :=
  r.short_code == shortCode && r.is_active &&
    (match r.expires_at with
     | none => true
     | some t => decide (t > now))

/-- `URLService.getURLFromDB`. -/
def getURLFromDB (env : Env) (s : Sys) (shortCode : String) : Except LookupErr String × Sys :=
  let s1 := s.log (.dbSelectURL shortCode)
  if env.dbQueryDown then (.error (.driver .unavailable), s1)
  else
    match s.db.find? (liveRow env.now shortCode) with
    | none => (.error .notFoundOrExpired, s1)
    | some r => (.ok r.original_url, s1)

/-! ## The two operations -/

/-- Lines 39 to 52 of `CreateShortURL`: the custom code when one is given,
validated; a generated code otherwise. -/
def determineCode (env : Env) (s : Sys) (req : CreateURLRequest) : Except Err String × Sys :=
  if req.CustomCode == "" then generateShortCode env s
  else
    match validateShortCode req.CustomCode with
    | .error e => (.error (.invalidCustomCode e), s)
    | .ok _ => (.ok req.CustomCode, s)

/-- `URLService.CreateShortURL`. -/
def CreateShortURL (env : Env) (s : Sys) (req : CreateURLRequest) :
    Except Err CreateURLResponse × Sys :=
  match validateURL env.parse req.OriginalURL with
  | .error e => (.error (.invalidURL e), s)
  | .ok _ =>
    match determineCode env s req with
    | (.error e, s1) => (.error e, s1)
    | (.ok shortCode, s1) =>
      match shortCodeExists env s1 shortCode with
      | (.error e, s2) => (.error (.checkFailed e), s2)
      | (.ok true, s2) => (.error .alreadyExists, s2)
      | (.ok false, s2) =>
        match createURLInDB env s2 req shortCode with
        | (.error e, s3) => (.error (.createFailed e), s3)
        | (.ok _, s3) =>
          -- a failed cache write is only logged
          let s4 := (SetURL env s3 shortCode req.OriginalURL).2
          (.ok { ShortCode := shortCode,
                 OriginalURL := req.OriginalURL,
                 ShortURL := "http://localhost:8080/" ++ shortCode,
                 CreatedAt := env.now }, s4)

/-- `URLService.GetOriginalURL`. -/
def GetOriginalURL (env : Env) (s : Sys) (shortCode : String) : Except Err String × Sys :=
  match GetURL env s shortCode with
  | (.ok originalURL, s1) =>
    -- the result of the increment is dropped
    let s2 := (IncrementClickCount env s1 shortCode).2
    (.ok originalURL, s2)
  | (.error _, s1) =>
    match getURLFromDB env s1 shortCode with
    | (.error err, s2) => (.error (.urlNotFound err), s2)
    | (.ok originalURL, s2) =>
      -- a failed cache write is only logged
      let s3 := (SetURL env s2 shortCode originalURL).2
      let s4 := (IncrementClickCount env s3 shortCode).2
      (.ok originalURL, s4)

/-! ## Concrete inputs

A small parser and a fault-free environment, used to instantiate the theorems
at concrete inputs. The theorems themselves hold for every parser. -/

/-- A small stand-in for `url.Parse`: the scheme is what precedes `://`, the
host what follows it up to the next `/`. -/
def sampleParse (u : String) : Option ParsedURL :=
  let cs := u.toList
  let scheme := cs.takeWhile (fun c => c != ':')
  match cs.dropWhile (fun c => c != ':') with
  | ':' :: '/' :: '/' :: rest =>
    some ⟨String.mk scheme, String.mk (rest.takeWhile (fun c => c != '/'))⟩
  | _ => some ⟨"", ""⟩

/-- Time 10, every collaborator answering, the random source returning six zero bytes. -/
def sampleEnv : Env :=
  { now := 10, parse := sampleParse, rand := some (fun _ => 0),
    redisGetDown := false, redisSetDown := false, redisIncrDown := false,
    dbExistsDown := false, dbInsertErr := none, dbQueryDown := false }

/-- The empty store and the empty cache. -/
def emptySys : Sys := ⟨[], [], []⟩

/-- The request of the example scenario. -/
def promoReq : CreateURLRequest :=
  { OriginalURL := "https://example.com/a", Title := "", Description := "",
    CustomCode := "promo1", ExpiresAt := none }

/-- The environment in which the cache write fails. -/
def cacheWriteDownEnv : Env := { sampleEnv with redisSetDown := true }

/-- The environment in which the cache read fails. -/
def cacheReadDownEnv : Env := { sampleEnv with redisGetDown := true }

/-- The request of the example scenario, with an expiry (time 5) that lies before
the clock of `sampleEnv` (time 10). -/
def pastExpiryReq : CreateURLRequest := { promoReq with ExpiresAt := some 5 }

/-- A request whose URL has no scheme. -/
def noSchemeReq : CreateURLRequest := { promoReq with OriginalURL := "example.com/a" }

/-- A request whose custom code has two characters. -/
def shortCodeReq : CreateURLRequest := { promoReq with CustomCode := "ab" }

/-- A store in which `promo1` is taken by a deactivated record; empty cache. -/
def takenSys : Sys :=
  ⟨[⟨"promo1", "https://old.example.com/", "", "", 1, false, none⟩], [], []⟩

/-- A store whose record `old1` expired at time 5; empty cache. -/
def expiredSys : Sys :=
  ⟨[⟨"old1", "https://example.com/x", "", "", 1, true, some 5⟩], [], []⟩

/-- A store whose record `live1` is active and expires at time 50; empty cache. -/
def liveSys : Sys :=
  ⟨[⟨"live1", "https://example.com/y", "", "", 1, true, some 50⟩], [], []⟩

/-- An empty store and a cache that holds `url:gone1`. -/
def cachedSys : Sys :=
  ⟨[], [("url:gone1", ⟨.str "https://example.com/z", some 100⟩)], []⟩

deriving instance DecidableEq for Except

/-- The calls made between state `s` and the later state `t`. -/
def callsSince (s t : Sys) : List Call := t.trace.drop s.trace.length

/-- The state after the cache read and the store query of a resolve that is not
served from the cache. -/
def afterMiss (s : Sys) (code : String) : Sys :=
  (s.log (.redisGet (urlKey code))).log (.dbSelectURL code)

/-- The store query of a resolve that is not served from the cache. -/
def storeAnswer (env : Env) (s : Sys) (code : String) : Except Err String :=
  if env.dbQueryDown then .error (.urlNotFound (.driver .unavailable))
  else
    match s.db.find? (liveRow env.now code) with
    | none => .error (.urlNotFound .notFoundOrExpired)
    | some r => .ok r.original_url

/-- The calls of a resolve that is not served from the cache. -/
def missCalls (env : Env) (s : Sys) (code : String) : List Call :=
  match storeAnswer env s code with
  | .error _ => [Call.redisGet (urlKey code), Call.dbSelectURL code]
  | .ok u => [Call.redisGet (urlKey code), Call.dbSelectURL code,
      Call.redisSet (urlKey code) u urlTTL, Call.redisIncr (clicksKey code)]

/-- The row `createURLInDB` inserts. -/
def newRow (env : Env) (req : CreateURLRequest) (shortCode : String) : URLRow :=
  { short_code := shortCode, original_url := req.OriginalURL, title := req.Title,
    description := req.Description, created_at := env.now, is_active := true,
    expires_at := req.ExpiresAt }

/-- The environment in which a concurrent request takes the code between the
existence check and the insert: the insert meets the `UNIQUE` constraint. -/
def raceEnv : Env := { sampleEnv with dbInsertErr := some .duplicateKey }

/-- The environment in which the store query fails. -/
def storeDownEnv : Env := { sampleEnv with dbQueryDown := true }

/-! ## The model methods (`internal/models/url.go`) -/

/-- `URL.IsExpired`, with `time.Now()` as a parameter: `now.After(*u.ExpiresAt)`. -/
def IsExpired (now : Time) (u : URLRow) : Bool :=
  match u.expires_at with
  | none => false
  | some t => decide (now > t)

/-- `URL.IsActive`, the method: the flag and not expired. -/
def IsActive (now : Time) (u : URLRow) : Bool :=
  u.is_active && !IsExpired now u

/-! ## The handlers (`internal/handlers/url_handler.go`) -/

/-- `fiber.StatusCreated`. -/
def StatusCreated : Nat := 201

/-- `fiber.StatusMovedPermanently`. -/
def StatusMovedPermanently : Nat := 301

/-- `fiber.StatusBadRequest`. -/
def StatusBadRequest : Nat := 400

/-- `fiber.StatusNotFound`. -/
def StatusNotFound : Nat := 404

/-- `fiber.StatusInternalServerError`. -/
def StatusInternalServerError : Nat := 500

/-- The JSON bodies the handlers send. -/
inductive Body where
  /-- `{"error": msg}` with a fixed message -/
  | errorText (msg : String)
  /-- `{"error": err.Error()}` -/
  | errorOf (e : Err)
  /-- the `CreateURLResponse` -/
  | created (r : CreateURLResponse)
deriving DecidableEq, Repr

/-- What a handler answers: `c.Status(status).JSON(body)` or `c.Redirect(location, status)`. -/
inductive Reply where
  | json (status : Nat) (body : Body)
  | redirect (location : String) (status : Nat)
deriving DecidableEq, Repr

/-- The HTTP status of a reply. -/
def Reply.status : Reply → Nat
  | .json status _ => status
  | .redirect _ status => status

/-- `URLHandler.CreateShortURL`; `body` is what `c.BodyParser` yields, `none` its error. -/
def URLHandler.CreateShortURL (env : Env) (s : Sys) (body : Option CreateURLRequest) :
    Reply × Sys :=
  match body with
  | none => (.json StatusBadRequest (.errorText "Invalid request body"), s)
  | some req =>
    if req.OriginalURL == "" then
      (.json StatusBadRequest (.errorText "original_url is required"), s)
    else
      match ScaleLink.CreateShortURL env s req with
      | (.error err, s1) => (.json StatusInternalServerError (.errorOf err), s1)
      | (.ok response, s1) => (.json StatusCreated (.created response), s1)

/-- `URLHandler.RedirectToOriginal`; the goroutine builds a request and drops it. -/
def URLHandler.RedirectToOriginal (env : Env) (s : Sys) (shortCode : String) : Reply × Sys :=
  if shortCode == "" then (.json StatusBadRequest (.errorText "Short code is required"), s)
  else
    match GetOriginalURL env s shortCode with
    | (.error _, s1) => (.json StatusNotFound (.errorText "URL not found or expired"), s1)
    | (.ok originalURL, s1) => (.redirect originalURL StatusMovedPermanently, s1)

/-- A query parameter as the client sent it. -/
inductive QueryVal where
  /-- the parameter is missing or empty: `c.Query` returns the default -/
  | absent
  /-- a decimal integer -/
  | number (n : Int)
  /-- anything else -/
  | other
deriving DecidableEq, Repr

/-- `strconv.Atoi(c.Query(key, dflt))` with the error dropped, `dflt` being the
number the default string denotes: an integer outside the 64-bit range comes
back as the nearest bound, a string that is no integer as 0. -/
def queryAtoi (q : QueryVal) (dflt : Int) : Int :=
  match q with
  | .absent => dflt
  | .number n => max (-(2 ^ 63)) (min n (2 ^ 63 - 1))
  | .other => 0

/-- Lines 109 to 119 of `URLHandler.ListURLs`: the `page` and `perPage` handed to
the service. -/
def URLHandler.ListURLs_args (pageQ perPageQ : QueryVal) : Int × Int :=
  let page := queryAtoi pageQ 1
  let perPage := queryAtoi perPageQ 10
  let page := if page < 1 then 1 else page
  let perPage := if perPage < 1 || perPage > 100 then 10 else perPage
  (page, perPage)

/-! ## Sequences of calls -/

/-- One call of the service, in its own environment. -/
inductive Op where
  | create (env : Env) (req : CreateURLRequest)
  | resolve (env : Env) (code : String)

/-- The system after one call. -/
def step (s : Sys) : Op → Sys
  | .create env req => (CreateShortURL env s req).2
  | .resolve env code => (GetOriginalURL env s code).2

/-- The system after a sequence of calls, first call first. -/
def run (s : Sys) (ops : List Op) : Sys := ops.foldl step s

/-- No two records share a short code. -/
def uniqueCodes (db : List URLRow) : Prop := (db.map URLRow.short_code).Nodup

/-- The counter `clicks:{code}` as the cache holds it at time `now`; 0 when absent. -/
def clickCount (now : Time) (kv : List (String × REntry)) (code : String) : Int :=
  match lookupKey now kv (clicksKey code) with
  | some ⟨.int n, _⟩ => n
  | _ => 0

/-- The key `clicks:{code}` is absent or holds a counter. -/
def counterOK (now : Time) (kv : List (String × REntry)) (code : String) : Prop :=
  ∀ e, lookupKey now kv (clicksKey code) = some e → ∃ n, e.val = .int n

/-- Every `url:{code}` entry of the cache is a string with a deadline, equal to
the target of a store record with that code, and was written either when that
record was created or at a time the record was not expired. -/
def cacheInv (s : Sys) : Prop :=
  ∀ code e, s.redis.lookup (urlKey code) = some e →
    ∃ v d r, e = ⟨.str v, some d⟩ ∧ r ∈ s.db ∧ r.short_code = code ∧ r.original_url = v ∧
      (d = r.created_at + urlTTL ∨ r.expires_at = none ∨
        ∃ t, r.expires_at = some t ∧ d < t + urlTTL)

/-! ## More concrete inputs -/

/-- The clock at 48 hours, every collaborator answering. -/
def lateEnv : Env := { sampleEnv with now := 2 * urlTTL }

/-- A store whose active record `edge1` has `expires_at` equal to the clock of
`sampleEnv` (time 10); empty cache. -/
def boundarySys : Sys :=
  ⟨[⟨"edge1", "https://example.com/e", "", "", 1, true, some 10⟩], [], []⟩

/-- The example scenario as a sequence: create `promo1`, resolve it, create it again. -/
def sampleOps : List Op :=
  [.create sampleEnv promoReq, .resolve sampleEnv "promo1", .create sampleEnv promoReq]

/-! ## Listing (`URLService.ListURLs`) and the code alphabet -/

/-- Arithmetic of the type `int` (64 bits): the result wraps around. -/
def wrap64 (x : Int) : Int := (x + 2 ^ 63) % 2 ^ 64 - 2 ^ 63

/-- `offset := (page - 1) * perPage`. -/
def offsetOf (page perPage : Int) : Int :=
  wrap64 (wrap64 (page - 1) * perPage)

/-- `totalPages := (total + perPage - 1) / perPage`, for `perPage` other than 0;
the division of `int` truncates toward zero. -/
def totalPagesOf (total perPage : Int) : Int :=
  wrap64 (Int.tdiv (wrap64 (wrap64 (total + perPage) - 1)) perPage)

/-- `models.URLListResponse`. -/
structure URLListResponse where
  URLs : List URLRow
  Total : Int
  Page : Int
  PerPage : Int
  TotalPages : Int
deriving DecidableEq, Repr

/-- The ways `ListURLs` ends without a response. -/
inductive ListErr where
  /-- `failed to get total count: %w` -/
  | countFailed (e : DBErr)
  /-- `failed to query URLs: %w`, the connection failing -/
  | queryFailed (e : DBErr)
  /-- `failed to query URLs: %w`, the store rejecting a negative `LIMIT` -/
  | negativeLimit
  /-- `failed to query URLs: %w`, the store rejecting a negative `OFFSET` -/
  | negativeOffset
  /-- run-time panic: integer divide by zero -/
  | divideByZero
deriving DecidableEq, Repr

/-- The rows of `WHERE is_active = true ORDER BY created_at DESC`. -/
def activeNewestFirst (db : List URLRow) : List URLRow :=
  (db.filter (fun r => r.is_active)).insertionSort (fun a b => b.created_at ≤ a.created_at)

/-- `URLService.ListURLs`; `countErr` and `queryErr` are the connection failures
of its two queries, `none` when the query is answered. -/
def ListURLs (countErr queryErr : Option DBErr) (db : List URLRow) (page perPage : Int) :
    Except ListErr URLListResponse :=
  let offset := offsetOf page perPage
  match countErr with
  | some e => .error (.countFailed e)
  | none =>
    let total : Int := wrap64 ((db.filter (fun r => r.is_active)).length)
    match queryErr with
    | some e => .error (.queryFailed e)
    | none =>
      if perPage < 0 then .error .negativeLimit
      else if offset < 0 then .error .negativeOffset
      else
        let urls := ((activeNewestFirst db).drop offset.toNat).take perPage.toNat
        if perPage = 0 then .error .divideByZero
        else
          .ok { URLs := urls, Total := total, Page := page, PerPage := perPage,
                TotalPages := totalPagesOf total perPage }

/-- `URLHandler.ListURLs` down to its call of the service: the normalised
arguments are handed to `ListURLs`. -/
def URLHandler.ListURLs (countErr queryErr : Option DBErr) (db : List URLRow)
    (pageQ perPageQ : QueryVal) : Except ListErr URLListResponse :=
  ScaleLink.ListURLs countErr queryErr db (URLHandler.ListURLs_args pageQ perPageQ).1
    (URLHandler.ListURLs_args pageQ perPageQ).2

/-- The number of byte values that `generateShortCode` maps to the character `c`. -/
def preimages (c : Char) : Nat :=
  ((List.finRange 256).filter (fun b => charsetAt b == some c)).length

/-! ## Lemmas on characters and lengths -/

set_option maxRecDepth 100000 in
theorem charsetAt_alnum (b : Fin 256) :
    (match charsetAt b with
     | some c => c.isAlphanum
     | none => false) = true := by
  revert b
  decide

theorem encodeBytes_spec (bs : List (Fin 256)) :
    ∃ cs, encodeBytes bs = some cs ∧ cs.length = bs.length ∧ ∀ c ∈ cs, c.isAlphanum = true := by
  induction bs with
  | nil => exact ⟨[], rfl, rfl, by simp⟩
  | cons b bs ih =>
    obtain ⟨cs, hcs, hlen, hall⟩ := ih
    have hb := charsetAt_alnum b
    cases hc : charsetAt b with
    | none => simp [hc] at hb
    | some c =>
      simp only [hc] at hb
      refine ⟨c :: cs, by simp [encodeBytes, hc, hcs], by simp [hlen], ?_⟩
      intro x hx
      rcases List.mem_cons.mp hx with rfl | hx
      · exact hb
      · exact hall x hx

theorem bufferOf_length (r : Fin 6 → Fin 256) : (bufferOf r).length = 6 := by
  simp [bufferOf]

theorem char_eq_dash (c : Char) : (c == '-') = decide (c.toNat = 45) := by
  by_cases h : c = '-'
  · subst h; decide
  · have : c.toNat ≠ 45 := by
      intro h2
      apply h
      apply Char.ext
      apply UInt32.toNat.inj
      simpa [Char.toNat] using h2
    simp [h, this]

theorem validCodeChar_ranges (c : Char) :
    validCodeChar c = true ↔
      (97 ≤ c.toNat ∧ c.toNat ≤ 122) ∨ (65 ≤ c.toNat ∧ c.toNat ≤ 90) ∨
        (48 ≤ c.toNat ∧ c.toNat ≤ 57) ∨ c.toNat = 45 := by
  have m1 : 'a'.toNat = 97 := rfl
  have m2 : 'z'.toNat = 122 := rfl
  have m3 : 'A'.toNat = 65 := rfl
  have m4 : 'Z'.toNat = 90 := rfl
  have m5 : '0'.toNat = 48 := rfl
  have m6 : '9'.toNat = 57 := rfl
  simp only [validCodeChar, char_eq_dash, m1, m2, m3, m4, m5, m6, Bool.or_eq_true,
    Bool.and_eq_true, decide_eq_true_eq]
  omega

theorem isAlphanum_ranges (c : Char) :
    c.isAlphanum = true ↔
      (97 ≤ c.toNat ∧ c.toNat ≤ 122) ∨ (65 ≤ c.toNat ∧ c.toNat ≤ 90) ∨
        (48 ≤ c.toNat ∧ c.toNat ≤ 57) := by
  have e : ∀ k : UInt32, (c.val ≥ k) = (k.toNat ≤ c.toNat) := fun k => rfl
  have e2 : ∀ k : UInt32, (c.val ≤ k) = (c.toNat ≤ k.toNat) := fun k => rfl
  have n1 : (65 : UInt32).toNat = 65 := rfl
  have n2 : (90 : UInt32).toNat = 90 := rfl
  have n3 : (97 : UInt32).toNat = 97 := rfl
  have n4 : (122 : UInt32).toNat = 122 := rfl
  have n5 : (48 : UInt32).toNat = 48 := rfl
  have n6 : (57 : UInt32).toNat = 57 := rfl
  simp only [Char.isAlphanum, Char.isAlpha, Char.isUpper, Char.isLower, Char.isDigit, e, e2,
    n1, n2, n3, n4, n5, n6, Bool.or_eq_true, Bool.and_eq_true, decide_eq_true_eq]
  omega

theorem validCodeChar_iff (c : Char) :
    validCodeChar c = true ↔ (c.isAlphanum = true ∨ c = '-') := by
  have hd : c = '-' ↔ c.toNat = 45 := by
    have := char_eq_dash c
    constructor
    · intro h; subst h; rfl
    · intro h; simpa [h] using this
  rw [validCodeChar_ranges, isAlphanum_ranges, hd]
  omega

theorem utf8Size_of_valid (c : Char) (h : validCodeChar c = true) : c.utf8Size = 1 := by
  have hr := (validCodeChar_ranges c).mp h
  have hle : c.toNat ≤ 127 := by omega
  have h1 : c.val ≤ UInt32.ofNatCore 127 (by decide) := hle
  unfold Char.utf8Size
  exact if_pos h1

theorem utf8Len_of_valid (cs : List Char) (h : cs.all validCodeChar = true) :
    String.utf8Len cs = cs.length := by
  induction cs with
  | nil => rfl
  | cons c cs ih =>
    simp only [List.all_cons, Bool.and_eq_true] at h
    simp [String.utf8Len_cons, ih h.2, utf8Size_of_valid c h.1]

theorem utf8ByteSize_of_valid (code : String) (h : code.toList.all validCodeChar = true) :
    code.utf8ByteSize = code.length := by
  cases code with
  | mk cs => exact utf8Len_of_valid cs h

/-! ## Lemmas on the service -/

theorem callsSince_append (s t : Sys) (cs : List Call) (h : t.trace = s.trace ++ cs) :
    callsSince s t = cs := by
  simp [callsSince, h]

theorem determineCode_frame (env : Env) (s : Sys) (req : CreateURLRequest) :
    (determineCode env s req).2.db = s.db ∧ (determineCode env s req).2.redis = s.redis ∧
      (determineCode env s req).2.trace =
        s.trace ++ (if req.CustomCode = "" then [Call.randRead] else []) := by
  unfold determineCode generateShortCode
  by_cases hc : req.CustomCode = ""
  · simp only [hc, beq_self_eq_true, if_true]
    cases env.rand with
    | none => simp [Sys.log]
    | some r =>
      simp only []
      cases encodeBytes (bufferOf r) <;> simp [Sys.log]
  · have : (req.CustomCode == "") = false := by simpa using hc
    simp only [this, hc, if_false]
    cases validateShortCode req.CustomCode <;> simp

theorem any_code_of_mem (db : List URLRow) (code : String)
    (h : ∃ r ∈ db, r.short_code = code) : db.any (fun r => r.short_code == code) = true := by
  obtain ⟨r, hr, hc⟩ := h
  exact List.any_eq_true.mpr ⟨r, hr, by simp [hc]⟩

/-! ## Lemmas on the cache -/

theorem urlKey_ne_clicksKey (a b : String) : urlKey a ≠ clicksKey b := by
  intro h
  have h2 := congrArg String.data h
  simp [urlKey, clicksKey, String.data_append] at h2

theorem lookup_putKey_same (kv : List (String × REntry)) (k : String) (e : REntry) :
    (putKey kv k e).lookup k = some e := by
  simp [putKey, List.lookup]

theorem lookup_filter_ne (kv : List (String × REntry)) (k k2 : String) (h : k2 ≠ k) :
    (kv.filter (fun p => p.1 != k)).lookup k2 = kv.lookup k2 := by
  induction kv with
  | nil => rfl
  | cons p kv ih =>
    obtain ⟨a, b⟩ := p
    by_cases ha : a = k
    · subst ha
      have h1 : (k2 == a) = false := by simpa using h
      simp [List.filter, List.lookup, h1, ih]
    · have h1 : (a != k) = true := by simpa using ha
      simp only [List.filter, h1, List.lookup]
      rw [ih]

theorem lookup_putKey_other (kv : List (String × REntry)) (k k2 : String) (e : REntry)
    (h : k2 ≠ k) : (putKey kv k e).lookup k2 = kv.lookup k2 := by
  have h1 : (k2 == k) = false := by simpa using h
  simp only [putKey, List.lookup, h1]
  exact lookup_filter_ne kv k k2 h

theorem IncrementClickCount_frame (env : Env) (s : Sys) (code : String) :
    (IncrementClickCount env s code).2.db = s.db ∧
      (IncrementClickCount env s code).2.trace = s.trace ++ [Call.redisIncr (clicksKey code)] ∧
      ∀ k, k ≠ clicksKey code →
        (IncrementClickCount env s code).2.redis.lookup k = s.redis.lookup k := by
  unfold IncrementClickCount Increment
  cases env.redisIncrDown with
  | true => simp [Sys.log]
  | false =>
    simp only [Bool.false_eq_true, if_false]
    cases lookupKey env.now s.redis (clicksKey code) with
    | none =>
      refine ⟨rfl, rfl, ?_⟩
      intro k hk
      exact lookup_putKey_other _ _ _ _ hk
    | some e =>
      obtain ⟨v, d⟩ := e
      cases v with
      | str x => simp [Sys.log]
      | int n =>
        refine ⟨rfl, rfl, ?_⟩
        intro k hk
        exact lookup_putKey_other _ _ _ _ hk

theorem SetURL_frame (env : Env) (s : Sys) (code u : String) :
    (SetURL env s code u).2.db = s.db ∧
      (SetURL env s code u).2.trace = s.trace ++ [Call.redisSet (urlKey code) u urlTTL] ∧
      (SetURL env s code u).2.redis =
        (if env.redisSetDown then s.redis
         else putKey s.redis (urlKey code) ⟨.str u, some (env.now + urlTTL)⟩) := by
  unfold SetURL SetWithTTL
  cases env.redisSetDown <;> simp [Sys.log]

/-! ## Lemmas on the two operations -/

theorem GetOriginalURL_miss (env : Env) (s : Sys) (code : String)
    (h : env.redisGetDown = true ∨ lookupKey env.now s.redis (urlKey code) = none) :
    GetOriginalURL env s code =
      if env.dbQueryDown then (.error (.urlNotFound (.driver .unavailable)), afterMiss s code)
      else
        match s.db.find? (liveRow env.now code) with
        | none => (.error (.urlNotFound .notFoundOrExpired), afterMiss s code)
        | some r =>
          (.ok r.original_url,
            (IncrementClickCount env (SetURL env (afterMiss s code) code r.original_url).2 code).2) := by
  have hget : ∃ e, GetURL env s code = (.error e, s.log (.redisGet (urlKey code))) := by
    unfold GetURL Get
    rcases h with h | h
    · exact ⟨.unavailable, by simp [h]⟩
    · cases env.redisGetDown with
      | true => exact ⟨.unavailable, by simp⟩
      | false => exact ⟨.nil, by simp [h]⟩
  obtain ⟨e, he⟩ := hget
  unfold GetOriginalURL
  rw [he]
  simp only [getURLFromDB, afterMiss]
  cases env.dbQueryDown with
  | true => simp [Sys.log]
  | false =>
    simp only [Bool.false_eq_true, if_false]
    have hdb : (s.log (.redisGet (urlKey code))).db = s.db := rfl
    rw [hdb]
    cases s.db.find? (liveRow env.now code) <;> rfl

theorem GetOriginalURL_hit (env : Env) (s s1 : Sys) (code v : String)
    (h : GetURL env s code = (.ok v, s1)) :
    GetOriginalURL env s code =
      (.ok v, (IncrementClickCount env (s.log (.redisGet (urlKey code))) code).2) := by
  have hs1 : s1 = s.log (.redisGet (urlKey code)) := by
    have := congrArg Prod.snd h
    unfold GetURL Get at this
    simp only at this
    rw [← this]
    split
    · rfl
    · split
      · rfl
      · split <;> rfl
  unfold GetOriginalURL
  rw [h, hs1]

/-! ## The claims -/

/-- C2. When the request's URL is valid, the determined code (the custom code, or
the one generated code) is `code`, the existence check is answered, and some
record of the store, active or not, carries `code`, then `CreateShortURL` fails
with `short code already exists`, the store and the cache are exactly as before,
and the only collaborator calls are the one read of the random source (for a
generated code) and the one existence check: no insert, no second code. -/
theorem CreateShortURL_conflict (env : Env) (s s1 : Sys) (req : CreateURLRequest) (code : String)
    (hurl : validateURL env.parse req.OriginalURL = .ok ())
    (hcode : determineCode env s req = (.ok code, s1))
    (hup : env.dbExistsDown = false)
    (hex : ∃ r ∈ s.db, r.short_code = code) :
    (CreateShortURL env s req).1 = .error .alreadyExists ∧
      (CreateShortURL env s req).2.db = s.db ∧
      (CreateShortURL env s req).2.redis = s.redis ∧
      callsSince s (CreateShortURL env s req).2 =
        (if req.CustomCode = "" then [Call.randRead] else []) ++ [Call.dbExists code] := by
  obtain ⟨hdb, hredis, htrace⟩ := determineCode_frame env s req
  rw [hcode] at hdb hredis htrace
  simp only at hdb hredis htrace
  have hany : s1.db.any (fun r => r.short_code == code) = true := by
    rw [hdb]; exact any_code_of_mem s.db code hex
  have hres : CreateShortURL env s req = (.error .alreadyExists, s1.log (.dbExists code)) := by
    simp [CreateShortURL, hurl, hcode, shortCodeExists, hup, hany]
  rw [hres]
  refine ⟨rfl, by simpa [Sys.log] using hdb, by simpa [Sys.log] using hredis, ?_⟩
  apply callsSince_append
  simp [Sys.log, htrace]

/-- C3. When the original URL does not parse, or its parse has an empty scheme or
an empty host, `CreateShortURL` fails with `invalid URL` and returns the system
untouched: same store, same cache, and no collaborator call in the trace (so no
code was generated), whatever the environment and the other request fields. -/
theorem CreateShortURL_rejects_malformed_url (env : Env) (s : Sys) (req : CreateURLRequest)
    (h : env.parse req.OriginalURL = none ∨
      ∃ p, env.parse req.OriginalURL = some p ∧ (p.Scheme = "" ∨ p.Host = "")) :
    ∃ e, CreateShortURL env s req = (.error (.invalidURL e), s) := by
  unfold CreateShortURL validateURL
  rcases h with h | ⟨p, hp, h⟩
  · exact ⟨.invalidFormat, by simp [h]⟩
  · refine ⟨.missingSchemeOrHost, ?_⟩
    rcases h with h | h <;> simp [hp, h]

/-- C5. Whatever six bytes the random source returns, `generateShortCode`
succeeds with a string of exactly 6 characters, each of them a letter or a digit;
and for every byte `b` the index `b % 62` lies inside the alphabet. -/
theorem generateShortCode_six_alnum (env : Env) (s : Sys) (r : Fin 6 → Fin 256)
    (h : env.rand = some r) :
    (∃ code, (generateShortCode env s).1 = .ok code ∧ code.length = 6 ∧
        ∀ c ∈ code.toList, c.isAlphanum = true) ∧
      charset.length = 62 ∧
      ∀ b : Fin 256, b.val % (charset.length % 256) < charset.length := by
  refine ⟨?_, by decide, ?_⟩
  · obtain ⟨cs, hcs, hlen, hall⟩ := encodeBytes_spec (bufferOf r)
    refine ⟨String.mk cs, by simp [generateShortCode, h, hcs], ?_, hall⟩
    rw [String.length, hlen, bufferOf_length]
  · intro b
    have h62 : charset.length = 62 := by decide
    rw [h62]
    exact Nat.mod_lt _ (by decide)

/-- C7. `validateShortCode` accepts a code exactly when it has between 3 and 10
characters and each is a letter, a digit or a hyphen; and for every non-empty
custom code outside that set `CreateShortURL` fails with `invalid URL` or
`invalid custom code` and returns the system untouched. -/
theorem validateShortCode_iff_and_reject :
    (∀ code : String, validateShortCode code = .ok () ↔
        (3 ≤ code.length ∧ code.length ≤ 10 ∧
          ∀ c ∈ code.toList, c.isAlphanum = true ∨ c = '-')) ∧
      (∀ (env : Env) (s : Sys) (req : CreateURLRequest), req.CustomCode ≠ "" →
        ¬ (3 ≤ req.CustomCode.length ∧ req.CustomCode.length ≤ 10 ∧
            ∀ c ∈ req.CustomCode.toList, c.isAlphanum = true ∨ c = '-') →
        (∃ e, CreateShortURL env s req = (.error (.invalidURL e), s)) ∨
          (∃ e, CreateShortURL env s req = (.error (.invalidCustomCode e), s))) := by
  have hiff : ∀ code : String, validateShortCode code = .ok () ↔
      (3 ≤ code.length ∧ code.length ≤ 10 ∧
        ∀ c ∈ code.toList, c.isAlphanum = true ∨ c = '-') := by
    intro code
    have hall : code.toList.all validCodeChar = true ↔
        ∀ c ∈ code.toList, c.isAlphanum = true ∨ c = '-' := by
      rw [List.all_eq_true]
      exact forall₂_congr (fun c _ => validCodeChar_iff c)
    constructor
    · intro h
      unfold validateShortCode at h
      split at h
      · cases h
      · rename_i hlen
        split at h
        · rename_i hchars
          have hsz := utf8ByteSize_of_valid code hchars
          simp only [Bool.or_eq_true, decide_eq_true_eq, not_or, not_lt] at hlen
          exact ⟨by omega, by omega, hall.mp hchars⟩
        · cases h
    · rintro ⟨h3, h10, hc⟩
      have hchars := hall.mpr hc
      have hsz := utf8ByteSize_of_valid code hchars
      unfold validateShortCode
      have hlen : (decide (code.utf8ByteSize < 3) || decide (code.utf8ByteSize > 10)) = false := by
        simp only [Bool.or_eq_false_iff, decide_eq_false_iff_not, not_lt]
        omega
      rw [if_neg (by simp [hlen]), if_pos hchars]
  refine ⟨hiff, ?_⟩
  intro env s req hne hbad
  have hrej : validateShortCode req.CustomCode ≠ .ok () := fun h => hbad ((hiff _).mp h)
  have hne2 : (req.CustomCode == "") = false := by simpa using hne
  unfold CreateShortURL
  cases hv : validateURL env.parse req.OriginalURL with
  | error e => exact Or.inl ⟨e, rfl⟩
  | ok u =>
    right
    cases hc : validateShortCode req.CustomCode with
    | error e => exact ⟨e, by simp [determineCode, hne2, hc]⟩
    | ok u2 => exact absurd hc hrej


theorem CreateShortURL_ok_inv (env : Env) (s s2 : Sys) (req : CreateURLRequest)
    (resp : CreateURLResponse) (h : CreateShortURL env s req = (.ok resp, s2)) :
    resp = { ShortCode := resp.ShortCode, OriginalURL := req.OriginalURL,
             ShortURL := "http://localhost:8080/" ++ resp.ShortCode, CreatedAt := env.now } ∧
      (determineCode env s req).1 = .ok resp.ShortCode ∧
      s.db.any (fun r => r.short_code == resp.ShortCode) = false ∧
      s2.db = s.db ++ [newRow env req resp.ShortCode] ∧
      s2.redis = (if env.redisSetDown then s.redis
        else putKey s.redis (urlKey resp.ShortCode)
          ⟨.str req.OriginalURL, some (env.now + urlTTL)⟩) := by
  obtain ⟨hdb, hredis, -⟩ := determineCode_frame env s req
  unfold CreateShortURL at h
  split at h
  · cases h
  · split at h
    · cases h
    · rename_i code s1 hdet
      rw [hdet] at hdb hredis
      simp only at hdb hredis
      unfold shortCodeExists at h
      cases hdown : env.dbExistsDown with
      | true => simp [hdown] at h
      | false =>
        simp only [hdown, Bool.false_eq_true, if_false] at h
        cases hany : s1.db.any (fun r => r.short_code == code) with
        | true => simp [hany] at h
        | false =>
          simp only [hany] at h
          unfold createURLInDB at h
          cases hins : env.dbInsertErr with
          | some e => simp [hins] at h
          | none =>
            have hany2 : (s1.log (.dbExists code)).db.any (fun r => r.short_code == code) = false := hany
            simp only [hins, hany2, Bool.false_eq_true, if_false] at h
            obtain ⟨hresp, hs2⟩ := Prod.mk.inj h
            have hresp := Except.ok.inj hresp
            subst hresp
            subst hs2
            obtain ⟨-, -, hr⟩ := SetURL_frame env
              { (s1.log (.dbExists code)).log (.dbInsert code req.OriginalURL) with
                db := (s1.log (.dbExists code)).db ++ [newRow env req code] } code req.OriginalURL
            refine ⟨rfl, by rw [hdet], by rw [← hdb]; exact hany, ?_, ?_⟩
            · have := (SetURL_frame env
                { (s1.log (.dbExists code)).log (.dbInsert code req.OriginalURL) with
                  db := (s1.log (.dbExists code)).db ++ [newRow env req code] } code req.OriginalURL).1
              simp only [newRow] at this ⊢
              rw [this]
              simp [Sys.log, hdb]
            · simp only [newRow] at hr
              rw [hr]
              simp [Sys.log, hredis]


theorem callsSince_afterMiss (s : Sys) (code : String) :
    callsSince s (afterMiss s code) = [Call.redisGet (urlKey code), Call.dbSelectURL code] := by
  apply callsSince_append
  simp [afterMiss, Sys.log]

theorem find_live_none (db : List URLRow) (now : Time) (code : String)
    (hexp : ∀ r ∈ db, r.short_code = code → ∃ t, r.expires_at = some t ∧ t < now) :
    db.find? (liveRow now code) = none := by
  rw [List.find?_eq_none]
  intro r hr hlive
  simp only [liveRow, Bool.and_eq_true, beq_iff_eq] at hlive
  obtain ⟨t, ht, hlt⟩ := hexp r hr hlive.1.1
  rw [ht] at hlive
  have := hlive.2
  simp only [gt_iff_lt, decide_eq_true_eq] at this
  exact Nat.lt_asymm hlt this

theorem find_live_some (db : List URLRow) (now : Time) (code u : String)
    (hrec : ∃ r ∈ db, r.short_code = code)
    (hlive : ∀ r ∈ db, r.short_code = code →
      r.is_active = true ∧ r.original_url = u ∧ ∀ t, r.expires_at = some t → now < t) :
    ∃ r, db.find? (liveRow now code) = some r ∧ r.original_url = u := by
  cases hf : db.find? (liveRow now code) with
  | none =>
    exfalso
    rw [List.find?_eq_none] at hf
    obtain ⟨r, hr, hc⟩ := hrec
    apply hf r hr
    obtain ⟨ha, -, he⟩ := hlive r hr hc
    simp only [liveRow, hc, ha, beq_self_eq_true, Bool.and_self, Bool.true_and]
    cases hx : r.expires_at with
    | none => rfl
    | some t => simpa using he t hx
  | some r =>
    refine ⟨r, rfl, ?_⟩
    have hmem := List.mem_of_find?_eq_some hf
    have hp := List.find?_some hf
    simp only [liveRow, Bool.and_eq_true, beq_iff_eq] at hp
    exact (hlive r hmem hp.1.1).2.1

/-- C4. When the cache holds no live `url:{code}` entry and every store record
with that code has `expires_at` earlier than the current time, `GetOriginalURL`
fails with `URL not found` (wrapping `URL not found or expired` whenever the
store query is answered), leaves the cache and the store as they were, and
calls only the cache read and the store query: no cache write, no increment. -/
theorem GetOriginalURL_expired_not_found (env : Env) (s : Sys) (code : String)
    (hmiss : lookupKey env.now s.redis (urlKey code) = none)
    (hrec : ∃ r ∈ s.db, r.short_code = code)
    (hexp : ∀ r ∈ s.db, r.short_code = code → ∃ t, r.expires_at = some t ∧ t < env.now) :
    (∃ e, (GetOriginalURL env s code).1 = .error (.urlNotFound e) ∧
        (env.dbQueryDown = false → e = .notFoundOrExpired)) ∧
      (GetOriginalURL env s code).2.redis = s.redis ∧
      (GetOriginalURL env s code).2.db = s.db ∧
      callsSince s (GetOriginalURL env s code).2 =
        [Call.redisGet (urlKey code), Call.dbSelectURL code] := by
  have _ := hrec
  rw [GetOriginalURL_miss env s code (Or.inr hmiss), find_live_none s.db env.now code hexp]
  cases env.dbQueryDown with
  | true =>
    exact ⟨⟨_, rfl, by simp⟩, rfl, rfl, callsSince_afterMiss s code⟩
  | false =>
    exact ⟨⟨_, rfl, fun _ => rfl⟩, rfl, rfl, callsSince_afterMiss s code⟩

/-- C8. When the cache read of `url:{code}` succeeds with `v`, `GetOriginalURL`
returns `v`, whatever the store holds, and its only collaborator calls are that
cache read and the counter increment: the store is neither queried nor changed. -/
theorem GetOriginalURL_cache_precedence (env : Env) (s s1 : Sys) (code v : String)
    (hhit : GetURL env s code = (.ok v, s1)) :
    (GetOriginalURL env s code).1 = .ok v ∧
      (GetOriginalURL env s code).2.db = s.db ∧
      callsSince s (GetOriginalURL env s code).2 =
        [Call.redisGet (urlKey code), Call.redisIncr (clicksKey code)] := by
  rw [GetOriginalURL_hit env s s1 code v hhit]
  obtain ⟨hdb, htr, -⟩ := IncrementClickCount_frame env (s.log (.redisGet (urlKey code))) code
  refine ⟨rfl, hdb, ?_⟩
  apply callsSince_append
  simp only [htr]
  simp [Sys.log]


theorem GetURL_of_lookup (env : Env) (s : Sys) (code u : String) (d : Time)
    (hup : env.redisGetDown = false)
    (hl : s.redis.lookup (urlKey code) = some ⟨.str u, some d⟩) (hd : env.now < d) :
    GetURL env s code = (.ok u, s.log (.redisGet (urlKey code))) := by
  simp [GetURL, Get, hup, lookupKey, hl, REntry.alive, hd]

theorem resolve_state_lookup (env : Env) (s : Sys) (code u : String)
    (hset : env.redisSetDown = false) :
    (IncrementClickCount env (SetURL env s code u).2 code).2.redis.lookup (urlKey code) =
      some ⟨.str u, some (env.now + urlTTL)⟩ := by
  obtain ⟨-, -, hk⟩ := IncrementClickCount_frame env (SetURL env s code u).2 code
  rw [hk _ (urlKey_ne_clicksKey code code), (SetURL_frame env s code u).2.2]
  simp only [hset, Bool.false_eq_true, if_false]
  exact lookup_putKey_same _ _ _

/-- C6. When the cache holds no live `url:{code}` entry, the store query is
answered, and the store's record for `code` is active, not expired, with target
`u`, then `GetOriginalURL` returns `u`; and when the cache write succeeds the
cache afterwards holds `url:{code} -> u` with deadline 24 hours later, so that a
cache read `GetURL` made before that deadline returns `u`. -/
theorem GetOriginalURL_write_back (env : Env) (s : Sys) (code u : String)
    (hmiss : lookupKey env.now s.redis (urlKey code) = none)
    (hq : env.dbQueryDown = false)
    (hrec : ∃ r ∈ s.db, r.short_code = code)
    (hlive : ∀ r ∈ s.db, r.short_code = code →
      r.is_active = true ∧ r.original_url = u ∧ ∀ t, r.expires_at = some t → env.now < t) :
    (GetOriginalURL env s code).1 = .ok u ∧
      (env.redisSetDown = false →
        (GetOriginalURL env s code).2.redis.lookup (urlKey code) =
            some ⟨.str u, some (env.now + urlTTL)⟩ ∧
          ∀ env2 : Env, env2.redisGetDown = false → env2.now < env.now + urlTTL →
            (GetURL env2 (GetOriginalURL env s code).2 code).1 = .ok u) := by
  obtain ⟨r, hf, hu⟩ := find_live_some s.db env.now code u hrec hlive
  rw [GetOriginalURL_miss env s code (Or.inr hmiss)]
  simp only [hq, Bool.false_eq_true, if_false, hf, hu, true_and]
  intro hset
  have hl := resolve_state_lookup env (afterMiss s code) code u hset
  refine ⟨hl, ?_⟩
  intro env2 hup hnow
  rw [GetURL_of_lookup env2 _ code u _ hup hl hnow]

theorem GetOriginalURL_miss_summary (env : Env) (s : Sys) (code : String)
    (h : env.redisGetDown = true ∨ lookupKey env.now s.redis (urlKey code) = none) :
    (GetOriginalURL env s code).1 = storeAnswer env s code ∧
      (GetOriginalURL env s code).2.db = s.db ∧
      callsSince s (GetOriginalURL env s code).2 = missCalls env s code := by
  rw [GetOriginalURL_miss env s code h]
  unfold missCalls storeAnswer
  cases env.dbQueryDown with
  | true => exact ⟨rfl, rfl, callsSince_afterMiss s code⟩
  | false =>
    simp only [Bool.false_eq_true, if_false]
    cases s.db.find? (liveRow env.now code) with
    | none => exact ⟨rfl, rfl, callsSince_afterMiss s code⟩
    | some r =>
      have f := IncrementClickCount_frame env (SetURL env (afterMiss s code) code r.original_url).2 code
      have g := SetURL_frame env (afterMiss s code) code r.original_url
      refine ⟨rfl, ?_, ?_⟩
      · simp only [f.1, g.1]
        rfl
      · apply callsSince_append
        simp only [f.2.1, g.2.1]
        simp [afterMiss, Sys.log]

/-- C9. A resolve whose cache read fails in transport and a resolve whose cache
read reports the key absent, over the same store at the same time, return the
same result, make the same collaborator calls (the same store query, and on a
store hit the same cache write-back and counter increment) and leave the same
store; on one and the same system the two outcomes are equal altogether. -/
theorem GetOriginalURL_read_failure_as_miss (envF envM : Env) (sF sM : Sys) (code : String)
    (hF : envF.redisGetDown = true) (hM : envM.redisGetDown = false)
    (habsent : lookupKey envM.now sM.redis (urlKey code) = none)
    (hdb : sF.db = sM.db) (hnow : envF.now = envM.now)
    (hq : envF.dbQueryDown = envM.dbQueryDown) :
    (GetOriginalURL envF sF code).1 = (GetOriginalURL envM sM code).1 ∧
      callsSince sF (GetOriginalURL envF sF code).2 =
        callsSince sM (GetOriginalURL envM sM code).2 ∧
      (GetOriginalURL envF sF code).2.db = (GetOriginalURL envM sM code).2.db ∧
      GetOriginalURL { envM with redisGetDown := true } sM code = GetOriginalURL envM sM code := by
  have _ := hM
  have h3 : GetOriginalURL { envM with redisGetDown := true } sM code =
      GetOriginalURL envM sM code := by
    rw [GetOriginalURL_miss _ sM code (Or.inl rfl), GetOriginalURL_miss envM sM code (Or.inr habsent)]
    rfl
  obtain ⟨r1, d1, c1⟩ := GetOriginalURL_miss_summary envF sF code (Or.inl hF)
  obtain ⟨r2, d2, c2⟩ := GetOriginalURL_miss_summary envM sM code (Or.inr habsent)
  have hs : storeAnswer envF sF code = storeAnswer envM sM code := by
    simp only [storeAnswer, hdb, hnow, hq]
  have hc : missCalls envF sF code = missCalls envM sM code := by
    simp only [missCalls, hs]
  exact ⟨by rw [r1, r2, hs], by rw [c1, c2, hc], by rw [d1, d2, hdb], h3⟩

/-- C10. The result of `CreateShortURL`, and the store it leaves, do not depend on
whether its cache write fails; the result of `GetOriginalURL` does not depend
on whether its cache write-back and its counter increment fail. -/
theorem cache_failures_swallowed (env : Env) (s : Sys) (req : CreateURLRequest) (code : String)
    (a b : Bool) :
    (CreateShortURL { env with redisSetDown := a } s req).1 = (CreateShortURL env s req).1 ∧
      (CreateShortURL { env with redisSetDown := a } s req).2.db =
        (CreateShortURL env s req).2.db ∧
      (GetOriginalURL { env with redisSetDown := a, redisIncrDown := b } s code).1 =
        (GetOriginalURL env s code).1 := by
  refine ⟨?_, ?_, ?_⟩
  · unfold CreateShortURL
    simp only []
    cases validateURL env.parse req.OriginalURL with
    | error e => rfl
    | ok u =>
      simp only []
      have hd : determineCode { env with redisSetDown := a } s req = determineCode env s req := rfl
      rw [hd]
      rcases determineCode env s req with ⟨r, s1⟩
      cases r with
      | error e => rfl
      | ok c =>
        simp only []
        have hx : shortCodeExists { env with redisSetDown := a } s1 c =
            shortCodeExists env s1 c := rfl
        rw [hx]
        rcases shortCodeExists env s1 c with ⟨r2, s2⟩
        cases r2 with
        | error e => rfl
        | ok bb =>
          cases bb with
          | true => rfl
          | false =>
            simp only []
            have hy : createURLInDB { env with redisSetDown := a } s2 req c =
                createURLInDB env s2 req c := rfl
            rw [hy]
            rcases createURLInDB env s2 req c with ⟨r3, s3⟩
            cases r3 with
            | error e => rfl
            | ok uu => rfl
  · unfold CreateShortURL
    simp only []
    cases validateURL env.parse req.OriginalURL with
    | error e => rfl
    | ok u =>
      simp only []
      have hd : determineCode { env with redisSetDown := a } s req = determineCode env s req := rfl
      rw [hd]
      rcases determineCode env s req with ⟨r, s1⟩
      cases r with
      | error e => rfl
      | ok c =>
        simp only []
        have hx : shortCodeExists { env with redisSetDown := a } s1 c =
            shortCodeExists env s1 c := rfl
        rw [hx]
        rcases shortCodeExists env s1 c with ⟨r2, s2⟩
        cases r2 with
        | error e => rfl
        | ok bb =>
          cases bb with
          | true => rfl
          | false =>
            simp only []
            have hy : createURLInDB { env with redisSetDown := a } s2 req c =
                createURLInDB env s2 req c := rfl
            rw [hy]
            rcases createURLInDB env s2 req c with ⟨r3, s3⟩
            cases r3 with
            | error e => rfl
            | ok uu =>
              simp only []
              rw [(SetURL_frame _ s3 c req.OriginalURL).1, (SetURL_frame env s3 c req.OriginalURL).1]
  · unfold GetOriginalURL
    have hg : GetURL { env with redisSetDown := a, redisIncrDown := b } s code =
        GetURL env s code := rfl
    rw [hg]
    rcases GetURL env s code with ⟨r, s1⟩
    cases r with
    | ok v => rfl
    | error e =>
      simp only []
      have hq : getURLFromDB { env with redisSetDown := a, redisIncrDown := b } s1 code =
          getURLFromDB env s1 code := rfl
      rw [hq]
      rcases getURLFromDB env s1 code with ⟨r2, s2⟩
      cases r2 with
      | error e2 => rfl
      | ok v => rfl

/-- C1, amended. After a successful `CreateShortURL` returning code `c` for URL
`u`: if the cache write succeeded, a resolve whose cache read is answered within
24 hours returns `u`; and a resolve that is served from the store (its cache
read fails or finds nothing) returns `u` provided the store query is answered
and the request's `expires_at` is unset or later than the time of the resolve. -/
theorem create_then_resolve (env : Env) (s s2 : Sys) (req : CreateURLRequest)
    (resp : CreateURLResponse) (hcreate : CreateShortURL env s req = (.ok resp, s2)) :
    (∀ env2 : Env, env.redisSetDown = false → env2.redisGetDown = false →
        env2.now < env.now + urlTTL →
        (GetOriginalURL env2 s2 resp.ShortCode).1 = .ok req.OriginalURL) ∧
      (∀ env2 : Env,
        (env2.redisGetDown = true ∨ lookupKey env2.now s2.redis (urlKey resp.ShortCode) = none) →
        env2.dbQueryDown = false →
        (∀ t, req.ExpiresAt = some t → env2.now < t) →
        (GetOriginalURL env2 s2 resp.ShortCode).1 = .ok req.OriginalURL) := by
  obtain ⟨-, -, hfree, hdb, hredis⟩ := CreateShortURL_ok_inv env s s2 req resp hcreate
  constructor
  · intro env2 hset hup hnow
    have hl : s2.redis.lookup (urlKey resp.ShortCode) =
        some ⟨.str req.OriginalURL, some (env.now + urlTTL)⟩ := by
      rw [hredis]
      simp only [hset, Bool.false_eq_true, if_false]
      exact lookup_putKey_same _ _ _
    rw [GetOriginalURL_hit env2 s2 _ _ _ (GetURL_of_lookup env2 s2 _ _ _ hup hl hnow)]
  · intro env2 hmiss hq hexp
    rw [(GetOriginalURL_miss_summary env2 s2 resp.ShortCode hmiss).1]
    have hnone : s.db.find? (liveRow env2.now resp.ShortCode) = none := by
      rw [List.find?_eq_none]
      intro r hr hlive
      simp only [liveRow, Bool.and_eq_true, beq_iff_eq] at hlive
      have hany := any_code_of_mem s.db resp.ShortCode ⟨r, hr, hlive.1.1⟩
      rw [hfree] at hany
      cases hany
    have hlive : liveRow env2.now resp.ShortCode (newRow env req resp.ShortCode) = true := by
      simp only [liveRow, newRow, beq_self_eq_true, Bool.and_self, Bool.true_and]
      cases hx : req.ExpiresAt with
      | none => rfl
      | some t => simpa using hexp t hx
    simp only [storeAnswer, hq, Bool.false_eq_true, if_false, hdb, List.find?_append, hnone,
      List.find?_cons, hlive, Option.none_or]
    rfl

/-! ## The claims at concrete inputs -/

/-- C1 as stated fails: a create with an expiry already in the past succeeds while
the cache write fails, and the immediately following resolve, served from the
store, reports `URL not found or expired`. -/
theorem create_then_resolve_past_expiry_fails :
    validateURL sampleParse pastExpiryReq.OriginalURL = .ok () ∧
      (CreateShortURL cacheWriteDownEnv emptySys pastExpiryReq).1 =
        .ok ⟨"promo1", "https://example.com/a", "http://localhost:8080/promo1", 10⟩ ∧
      (GetOriginalURL sampleEnv (CreateShortURL cacheWriteDownEnv emptySys pastExpiryReq).2
          "promo1").1 = .error (.urlNotFound .notFoundOrExpired) := by
  decide

/-- C1, amended, at the example scenario: `promo1` resolves to its URL both from
the cache and, with the cache read failing, from the store. -/
theorem create_then_resolve_witness :
    CreateShortURL sampleEnv emptySys promoReq =
        (.ok ⟨"promo1", "https://example.com/a", "http://localhost:8080/promo1", 10⟩,
          (CreateShortURL sampleEnv emptySys promoReq).2) ∧
      (GetOriginalURL sampleEnv (CreateShortURL sampleEnv emptySys promoReq).2 "promo1").1 =
        .ok "https://example.com/a" ∧
      (GetOriginalURL cacheReadDownEnv (CreateShortURL sampleEnv emptySys promoReq).2
          "promo1").1 = .ok "https://example.com/a" :=
  have h := create_then_resolve sampleEnv emptySys (CreateShortURL sampleEnv emptySys promoReq).2
    promoReq ⟨"promo1", "https://example.com/a", "http://localhost:8080/promo1", 10⟩
    (by decide)
  ⟨by decide, h.1 sampleEnv (by decide) (by decide) (by decide),
    h.2 cacheReadDownEnv (Or.inl (by decide)) (by decide) (by intro t ht; cases ht)⟩

/-- C2 at a concrete input: `promo1` is taken by a deactivated record. -/
theorem CreateShortURL_conflict_witness :
    validateURL sampleEnv.parse promoReq.OriginalURL = .ok () ∧
      determineCode sampleEnv takenSys promoReq = (.ok "promo1", takenSys) ∧
      (CreateShortURL sampleEnv takenSys promoReq).1 = .error .alreadyExists ∧
      (CreateShortURL sampleEnv takenSys promoReq).2.db = takenSys.db ∧
      (CreateShortURL sampleEnv takenSys promoReq).2.redis = takenSys.redis ∧
      callsSince takenSys (CreateShortURL sampleEnv takenSys promoReq).2 =
        (if promoReq.CustomCode = "" then [Call.randRead] else []) ++ [Call.dbExists "promo1"] :=
  ⟨by decide, by decide,
    CreateShortURL_conflict sampleEnv takenSys takenSys promoReq "promo1" (by decide) (by decide)
      (by decide) ⟨⟨"promo1", "https://old.example.com/", "", "", 1, false, none⟩, by decide, rfl⟩⟩

/-- C3 at a concrete input: a URL without a scheme. -/
theorem CreateShortURL_rejects_malformed_url_witness :
    sampleEnv.parse noSchemeReq.OriginalURL = some ⟨"", ""⟩ ∧
      ∃ e, CreateShortURL sampleEnv emptySys noSchemeReq = (.error (.invalidURL e), emptySys) :=
  ⟨by decide,
    CreateShortURL_rejects_malformed_url sampleEnv emptySys noSchemeReq
      (Or.inr ⟨⟨"", ""⟩, by decide, Or.inl rfl⟩)⟩

/-- C4 at a concrete input: the record `old1` expired at time 5, the clock shows 10. -/
theorem GetOriginalURL_expired_not_found_witness :
    lookupKey sampleEnv.now expiredSys.redis (urlKey "old1") = none ∧
      (∃ e, (GetOriginalURL sampleEnv expiredSys "old1").1 = .error (.urlNotFound e) ∧
        (sampleEnv.dbQueryDown = false → e = .notFoundOrExpired)) ∧
      (GetOriginalURL sampleEnv expiredSys "old1").2.redis = expiredSys.redis ∧
      (GetOriginalURL sampleEnv expiredSys "old1").2.db = expiredSys.db ∧
      callsSince expiredSys (GetOriginalURL sampleEnv expiredSys "old1").2 =
        [Call.redisGet (urlKey "old1"), Call.dbSelectURL "old1"] :=
  ⟨by decide,
    GetOriginalURL_expired_not_found sampleEnv expiredSys "old1" (by decide)
      ⟨⟨"old1", "https://example.com/x", "", "", 1, true, some 5⟩, by decide, rfl⟩
      (by
        intro r hr _
        have hr2 : r = ⟨"old1", "https://example.com/x", "", "", 1, true, some 5⟩ := by
          simpa [expiredSys] using hr
        subst hr2
        exact ⟨5, rfl, by decide⟩)⟩

/-- C5 at a concrete input: six zero bytes. -/
theorem generateShortCode_six_alnum_witness :
    sampleEnv.rand = some (fun _ => 0) ∧
      (∃ code, (generateShortCode sampleEnv emptySys).1 = .ok code ∧ code.length = 6 ∧
        ∀ c ∈ code.toList, c.isAlphanum = true) ∧
      charset.length = 62 ∧
      ∀ b : Fin 256, b.val % (charset.length % 256) < charset.length :=
  ⟨rfl, generateShortCode_six_alnum sampleEnv emptySys (fun _ => 0) rfl⟩

/-- C6 at a concrete input: the record `live1` is active and expires at time 50. -/
theorem GetOriginalURL_write_back_witness :
    lookupKey sampleEnv.now liveSys.redis (urlKey "live1") = none ∧
      (GetOriginalURL sampleEnv liveSys "live1").1 = .ok "https://example.com/y" ∧
      (GetOriginalURL sampleEnv liveSys "live1").2.redis.lookup (urlKey "live1") =
        some ⟨.str "https://example.com/y", some (sampleEnv.now + urlTTL)⟩ ∧
      (GetURL sampleEnv (GetOriginalURL sampleEnv liveSys "live1").2 "live1").1 =
        .ok "https://example.com/y" :=
  have h := GetOriginalURL_write_back sampleEnv liveSys "live1" "https://example.com/y"
    (by decide) (by decide)
    ⟨⟨"live1", "https://example.com/y", "", "", 1, true, some 50⟩, by decide, rfl⟩
    (by
      intro r hr _
      have hr2 : r = ⟨"live1", "https://example.com/y", "", "", 1, true, some 50⟩ := by
        simpa [liveSys] using hr
      subst hr2
      refine ⟨rfl, rfl, ?_⟩
      intro t ht
      cases ht
      decide)
  ⟨by decide, h.1, (h.2 (by decide)).1,
    (h.2 (by decide)).2 sampleEnv (by decide) (by decide)⟩

/-- C7 at a concrete input: the two-character custom code `ab`. -/
theorem validateShortCode_iff_and_reject_witness :
    shortCodeReq.CustomCode ≠ "" ∧
      ((∃ e, CreateShortURL sampleEnv emptySys shortCodeReq = (.error (.invalidURL e), emptySys)) ∨
        (∃ e, CreateShortURL sampleEnv emptySys shortCodeReq =
          (.error (.invalidCustomCode e), emptySys))) :=
  ⟨by decide,
    validateShortCode_iff_and_reject.2 sampleEnv emptySys shortCodeReq (by decide)
      (by decide)⟩

/-- C8 at a concrete input: the cache holds `url:gone1`, the store has no such record. -/
theorem GetOriginalURL_cache_precedence_witness :
    GetURL sampleEnv cachedSys "gone1" =
        (.ok "https://example.com/z", cachedSys.log (.redisGet (urlKey "gone1"))) ∧
      (GetOriginalURL sampleEnv cachedSys "gone1").1 = .ok "https://example.com/z" ∧
      (GetOriginalURL sampleEnv cachedSys "gone1").2.db = cachedSys.db ∧
      callsSince cachedSys (GetOriginalURL sampleEnv cachedSys "gone1").2 =
        [Call.redisGet (urlKey "gone1"), Call.redisIncr (clicksKey "gone1")] :=
  ⟨by decide,
    GetOriginalURL_cache_precedence sampleEnv cachedSys
      (cachedSys.log (.redisGet (urlKey "gone1"))) "gone1" "https://example.com/z" (by decide)⟩

/-- C9 at a concrete input: the same system resolved once with a failing cache
read and once with a cache read that reports the key absent. -/
theorem GetOriginalURL_read_failure_as_miss_witness :
    cacheReadDownEnv.redisGetDown = true ∧ sampleEnv.redisGetDown = false ∧
      lookupKey sampleEnv.now liveSys.redis (urlKey "live1") = none ∧
      (GetOriginalURL cacheReadDownEnv liveSys "live1").1 =
        (GetOriginalURL sampleEnv liveSys "live1").1 ∧
      callsSince liveSys (GetOriginalURL cacheReadDownEnv liveSys "live1").2 =
        callsSince liveSys (GetOriginalURL sampleEnv liveSys "live1").2 ∧
      (GetOriginalURL cacheReadDownEnv liveSys "live1").2.db =
        (GetOriginalURL sampleEnv liveSys "live1").2.db ∧
      GetOriginalURL { sampleEnv with redisGetDown := true } liveSys "live1" =
        GetOriginalURL sampleEnv liveSys "live1" :=
  ⟨by decide, by decide, by decide,
    GetOriginalURL_read_failure_as_miss cacheReadDownEnv sampleEnv liveSys liveSys "live1"
      (by decide) (by decide) (by decide) rfl rfl rfl⟩


/-! ## Further lemmas on the two operations -/

theorem shortCodeExists_frame (env : Env) (s : Sys) (code : String) :
    (shortCodeExists env s code).2.db = s.db ∧ (shortCodeExists env s code).2.redis = s.redis := by
  unfold shortCodeExists
  cases env.dbExistsDown <;> exact ⟨rfl, rfl⟩

theorem createURLInDB_error_frame (env : Env) (s : Sys) (req : CreateURLRequest) (code : String)
    (e : DBErr) (h : (createURLInDB env s req code).1 = .error e) :
    (createURLInDB env s req code).2.db = s.db ∧
      (createURLInDB env s req code).2.redis = s.redis := by
  unfold createURLInDB at h ⊢
  cases hins : env.dbInsertErr with
  | some e3 => exact ⟨rfl, rfl⟩
  | none =>
    cases hany : s.db.any (fun r => r.short_code == code) with
    | true => simp only [if_true]; exact ⟨rfl, rfl⟩
    | false => simp [hins, hany] at h

theorem CreateShortURL_error_frame (env : Env) (s : Sys) (req : CreateURLRequest) (e : Err)
    (h : (CreateShortURL env s req).1 = .error e) :
    (CreateShortURL env s req).2.db = s.db ∧ (CreateShortURL env s req).2.redis = s.redis := by
  obtain ⟨hdb, hredis, -⟩ := determineCode_frame env s req
  unfold CreateShortURL at h ⊢
  cases hv : validateURL env.parse req.OriginalURL with
  | error e1 => exact ⟨rfl, rfl⟩
  | ok u =>
    simp only [hv] at h ⊢
    rcases hd : determineCode env s req with ⟨r, s1⟩
    rw [hd] at hdb hredis
    simp only at hdb hredis
    cases r with
    | error e2 => exact ⟨hdb, hredis⟩
    | ok c =>
      simp only [hd] at h ⊢
      obtain ⟨xdb, xredis⟩ := shortCodeExists_frame env s1 c
      rcases hx : shortCodeExists env s1 c with ⟨r2, s2⟩
      rw [hx] at xdb xredis
      simp only at xdb xredis
      cases r2 with
      | error e3 => exact ⟨xdb.trans hdb, xredis.trans hredis⟩
      | ok b =>
        cases b with
        | true => exact ⟨xdb.trans hdb, xredis.trans hredis⟩
        | false =>
          simp only [hx] at h ⊢
          rcases hy : createURLInDB env s2 req c with ⟨r3, s3⟩
          cases r3 with
          | error e4 =>
            obtain ⟨ydb, yredis⟩ := createURLInDB_error_frame env s2 req c e4 (by rw [hy])
            rw [hy] at ydb yredis
            exact ⟨ydb.trans (xdb.trans hdb), yredis.trans (xredis.trans hredis)⟩
          | ok u2 =>
            simp only [hy] at h
            cases h

theorem GetURL_cases (env : Env) (s : Sys) (code : String) :
    (env.redisGetDown = true ∨ lookupKey env.now s.redis (urlKey code) = none) ∨
      (env.redisGetDown = false ∧ ∃ e v, lookupKey env.now s.redis (urlKey code) = some e ∧
        GetURL env s code = (.ok v, s.log (.redisGet (urlKey code)))) := by
  cases hd : env.redisGetDown with
  | true => exact Or.inl (Or.inl rfl)
  | false =>
    cases hl : lookupKey env.now s.redis (urlKey code) with
    | none => exact Or.inl (Or.inr rfl)
    | some e =>
      right
      refine ⟨rfl, e, ?_⟩
      obtain ⟨v, d⟩ := e
      cases v with
      | str x => exact ⟨x, rfl, by simp [GetURL, Get, hd, hl]⟩
      | int n => exact ⟨toString n, rfl, by simp [GetURL, Get, hd, hl]⟩

theorem GetOriginalURL_db (env : Env) (s : Sys) (code : String) :
    (GetOriginalURL env s code).2.db = s.db := by
  rcases GetURL_cases env s code with h | ⟨-, e, v, -, hg⟩
  · exact (GetOriginalURL_miss_summary env s code h).2.1
  · rw [GetOriginalURL_hit env s _ code v hg]
    exact (IncrementClickCount_frame env _ code).1

theorem GetOriginalURL_error_frame (env : Env) (s : Sys) (code : String) (e : Err)
    (h : (GetOriginalURL env s code).1 = .error e) :
    (GetOriginalURL env s code).2.redis = s.redis := by
  rcases GetURL_cases env s code with hm | ⟨-, e1, v, -, hg⟩
  · rw [GetOriginalURL_miss env s code hm] at h ⊢
    cases hq : env.dbQueryDown with
    | true => rfl
    | false =>
      simp only [hq, Bool.false_eq_true, if_false] at h ⊢
      cases hf : s.db.find? (liveRow env.now code) with
      | none => rfl
      | some r =>
        simp only [hf] at h
        cases h
  · rw [GetOriginalURL_hit env s _ code v hg] at h
    cases h


theorem clicksKey_injective (a b : String) (h : clicksKey a = clicksKey b) : a = b := by
  have h2 := congrArg String.data h
  simp only [clicksKey, String.data_append] at h2
  exact String.ext (List.append_cancel_left h2)

theorem urlKey_injective (a b : String) (h : urlKey a = urlKey b) : a = b := by
  have h2 := congrArg String.data h
  simp only [urlKey, String.data_append] at h2
  exact String.ext (List.append_cancel_left h2)

theorem lookupKey_congr (now : Time) (kv kv2 : List (String × REntry)) (k : String)
    (h : kv2.lookup k = kv.lookup k) : lookupKey now kv2 k = lookupKey now kv k := by
  simp only [lookupKey, h]

theorem IncrementClickCount_count (env : Env) (s : Sys) (code : String)
    (hup : env.redisIncrDown = false) (hok : counterOK env.now s.redis code) :
    clickCount env.now (IncrementClickCount env s code).2.redis code =
      clickCount env.now s.redis code + 1 := by
  unfold IncrementClickCount Increment clickCount
  simp only [hup, Bool.false_eq_true, if_false]
  cases hl : lookupKey env.now s.redis (clicksKey code) with
  | none =>
    simp only [lookupKey, lookup_putKey_same, REntry.alive, if_true]
    rfl
  | some e =>
    obtain ⟨v, d⟩ := e
    obtain ⟨n, hn⟩ := hok _ hl
    simp only at hn
    subst hn
    have halive : REntry.alive env.now ⟨.int n, d⟩ = true := by
      unfold lookupKey at hl
      split at hl
      · cases hl
      · rename_i e2 he2
        split at hl
        · rename_i ha
          cases hl
          exact ha
        · cases hl
    have halive2 : REntry.alive env.now ⟨.int (n + 1), d⟩ = true := halive
    simp only [lookupKey, lookup_putKey_same, halive2, if_true]

theorem SetURL_lookup_other (env : Env) (s : Sys) (code u k : String) (hk : k ≠ urlKey code) :
    (SetURL env s code u).2.redis.lookup k = s.redis.lookup k := by
  rw [(SetURL_frame env s code u).2.2]
  cases env.redisSetDown with
  | true => rfl
  | false => exact lookup_putKey_other _ _ _ _ hk

/-- C11. With the counter increment answered and `clicks:{code}` absent or holding
a counter: every successful `GetOriginalURL`, from the cache or from the store,
raises the counter of `code` by exactly 1 and leaves every other code's
`clicks:` entry and every other code's `url:` entry as it was; every failing
`GetOriginalURL` leaves the whole cache, so all counters, unchanged. -/
theorem click_counter_once_per_resolve (env : Env) (s : Sys) (code : String)
    (hup : env.redisIncrDown = false) (hok : counterOK env.now s.redis code) :
    (∀ u, (GetOriginalURL env s code).1 = .ok u →
        clickCount env.now (GetOriginalURL env s code).2.redis code =
          clickCount env.now s.redis code + 1 ∧
        (∀ c, c ≠ code →
          (GetOriginalURL env s code).2.redis.lookup (clicksKey c) =
            s.redis.lookup (clicksKey c)) ∧
        (∀ c, c ≠ code →
          (GetOriginalURL env s code).2.redis.lookup (urlKey c) = s.redis.lookup (urlKey c))) ∧
      (∀ e, (GetOriginalURL env s code).1 = .error e →
        (GetOriginalURL env s code).2.redis = s.redis) := by
  refine ⟨?_, fun e he => GetOriginalURL_error_frame env s code e he⟩
  intro u hu
  have hne1 : ∀ c, c ≠ code → clicksKey c ≠ clicksKey code :=
    fun c hc h => hc (clicksKey_injective c code h)
  have hne2 : ∀ c, c ≠ code → urlKey c ≠ urlKey code :=
    fun c hc h => hc (urlKey_injective c code h)
  rcases GetURL_cases env s code with hm | ⟨-, e1, v, -, hg⟩
  · rw [GetOriginalURL_miss env s code hm] at hu ⊢
    cases hq : env.dbQueryDown with
    | true => simp [hq] at hu
    | false =>
      simp only [hq, Bool.false_eq_true, if_false] at hu ⊢
      cases hf : s.db.find? (liveRow env.now code) with
      | none => simp [hf] at hu
      | some r =>
        simp only [hf]
        have hset : ∀ k, k ≠ urlKey code →
            (SetURL env (afterMiss s code) code r.original_url).2.redis.lookup k =
              s.redis.lookup k := fun k hk => SetURL_lookup_other env _ code _ k hk
        obtain ⟨-, -, hinc⟩ := IncrementClickCount_frame env
          (SetURL env (afterMiss s code) code r.original_url).2 code
        have hck := hset (clicksKey code) (fun h => urlKey_ne_clicksKey code code h.symm)
        have hok2 : counterOK env.now
            (SetURL env (afterMiss s code) code r.original_url).2.redis code := by
          intro e he
          rw [lookupKey_congr _ _ _ _ hck] at he
          exact hok e he
        refine ⟨?_, ?_, ?_⟩
        · rw [IncrementClickCount_count env _ code hup hok2]
          simp only [clickCount, lookupKey_congr _ _ _ _ hck]
        · intro c hc
          rw [hinc _ (hne1 c hc)]
          exact hset _ (fun h => urlKey_ne_clicksKey code c h.symm)
        · intro c hc
          rw [hinc _ (urlKey_ne_clicksKey c code)]
          exact hset _ (hne2 c hc)
  · rw [GetOriginalURL_hit env s _ code v hg]
    obtain ⟨-, -, hinc⟩ := IncrementClickCount_frame env (s.log (.redisGet (urlKey code))) code
    refine ⟨IncrementClickCount_count env _ code hup hok, ?_, ?_⟩
    · intro c hc
      exact hinc _ (hne1 c hc)
    · intro c hc
      exact hinc _ (urlKey_ne_clicksKey c code)


/-- C12, amended. When the existence check reports the code free and the insert
then meets the `UNIQUE` constraint, `CreateShortURL` fails with
`failed to create URL in database` wrapping the duplicate-key error, which is
not the `short code already exists` error of the pre-check; the store and the
cache are left as they were. -/
theorem CreateShortURL_duplicate_on_insert (env : Env) (s s1 : Sys) (req : CreateURLRequest)
    (code : String)
    (hurl : validateURL env.parse req.OriginalURL = .ok ())
    (hcode : determineCode env s req = (.ok code, s1))
    (hup : env.dbExistsDown = false)
    (hfree : s.db.any (fun r => r.short_code == code) = false)
    (hdup : env.dbInsertErr = some .duplicateKey) :
    (CreateShortURL env s req).1 = .error (.createFailed .duplicateKey) ∧
      Err.createFailed .duplicateKey ≠ Err.alreadyExists ∧
      (CreateShortURL env s req).2.db = s.db ∧
      (CreateShortURL env s req).2.redis = s.redis := by
  obtain ⟨hdb, -, -⟩ := determineCode_frame env s req
  rw [hcode] at hdb
  simp only at hdb
  have hany : s1.db.any (fun r => r.short_code == code) = false := by rw [hdb]; exact hfree
  have hres : (CreateShortURL env s req).1 = .error (.createFailed .duplicateKey) := by
    simp [CreateShortURL, hurl, hcode, shortCodeExists, hup, hany, createURLInDB, hdup]
  obtain ⟨h1, h2⟩ := CreateShortURL_error_frame env s req _ hres
  exact ⟨hres, by decide, h1, h2⟩

theorem handler_of_service_error (env : Env) (s : Sys) (req : CreateURLRequest) (e : Err)
    (hne : req.OriginalURL ≠ "") (h : (CreateShortURL env s req).1 = .error e) :
    (URLHandler.CreateShortURL env s (some req)).1 =
      .json StatusInternalServerError (.errorOf e) := by
  have hb : (req.OriginalURL == "") = false := by simpa using hne
  unfold URLHandler.CreateShortURL
  simp only [hb, Bool.false_eq_true, if_false]
  rcases hc : CreateShortURL env s req with ⟨r, s1⟩
  rw [hc] at h
  simp only at h
  subst h
  rfl

theorem CreateShortURL_fails_malformed (env : Env) (s : Sys) (req : CreateURLRequest)
    (h : env.parse req.OriginalURL = none ∨
      ∃ p, env.parse req.OriginalURL = some p ∧ (p.Scheme = "" ∨ p.Host = "")) :
    ∃ e, (CreateShortURL env s req).1 = .error e := by
  unfold CreateShortURL validateURL
  rcases h with h | ⟨p, hp, h⟩
  · exact ⟨.invalidURL .invalidFormat, by simp [h]⟩
  · rcases h with h | h
    · exact ⟨.invalidURL .missingSchemeOrHost, by simp [hp, h]⟩
    · exact ⟨.invalidURL .missingSchemeOrHost, by simp [hp, h]⟩

theorem CreateShortURL_fails_badCode (env : Env) (s : Sys) (req : CreateURLRequest)
    (hne : req.CustomCode ≠ "") (hbad : validateShortCode req.CustomCode ≠ .ok ()) :
    ∃ e, (CreateShortURL env s req).1 = .error e := by
  have hne2 : (req.CustomCode == "") = false := by simpa using hne
  unfold CreateShortURL
  cases hv : validateURL env.parse req.OriginalURL with
  | error e => exact ⟨_, rfl⟩
  | ok u =>
    cases hc : validateShortCode req.CustomCode with
    | error e => exact ⟨.invalidCustomCode e, by simp [determineCode, hne2, hc]⟩
    | ok u2 => exact absurd hc hbad

theorem CreateShortURL_fails_conflict (env : Env) (s s1 : Sys) (req : CreateURLRequest)
    (code : String)
    (hurl : validateURL env.parse req.OriginalURL = .ok ())
    (hcode : determineCode env s req = (.ok code, s1))
    (hup : env.dbExistsDown = false)
    (hex : ∃ r ∈ s.db, r.short_code = code) :
    (CreateShortURL env s req).1 = .error .alreadyExists := by
  obtain ⟨hdb, -, -⟩ := determineCode_frame env s req
  rw [hcode] at hdb
  simp only at hdb
  have hany : s1.db.any (fun r => r.short_code == code) = true := by
    rw [hdb]; exact any_code_of_mem s.db code hex
  simp [CreateShortURL, hurl, hcode, shortCodeExists, hup, hany]

/-- C13, amended. The shorten endpoint answers 400 exactly when the body does not
parse or `original_url` is empty; every request that reaches the service and
fails there is answered 500 with the service error as body, and so in particular
a malformed non-empty URL, a malformed or oversized custom code, and a code that
already exists. -/
theorem shorten_status (env : Env) (s : Sys) :
    (∀ body, (URLHandler.CreateShortURL env s body).1.status = StatusBadRequest ↔
        (body = none ∨ ∃ req, body = some req ∧ req.OriginalURL = "")) ∧
      (∀ req e, req.OriginalURL ≠ "" → (CreateShortURL env s req).1 = .error e →
        (URLHandler.CreateShortURL env s (some req)).1 =
          .json StatusInternalServerError (.errorOf e)) ∧
      (∀ req, req.OriginalURL ≠ "" →
        (env.parse req.OriginalURL = none ∨
          ∃ p, env.parse req.OriginalURL = some p ∧ (p.Scheme = "" ∨ p.Host = "")) →
        (URLHandler.CreateShortURL env s (some req)).1.status = StatusInternalServerError) ∧
      (∀ req, req.OriginalURL ≠ "" → req.CustomCode ≠ "" →
        validateShortCode req.CustomCode ≠ .ok () →
        (URLHandler.CreateShortURL env s (some req)).1.status = StatusInternalServerError) ∧
      (∀ req code s1, req.OriginalURL ≠ "" →
        validateURL env.parse req.OriginalURL = .ok () →
        determineCode env s req = (.ok code, s1) → env.dbExistsDown = false →
        (∃ r ∈ s.db, r.short_code = code) →
        (URLHandler.CreateShortURL env s (some req)).1.status = StatusInternalServerError) := by
  refine ⟨?_, fun req e hne h => handler_of_service_error env s req e hne h, ?_, ?_, ?_⟩
  · intro body
    cases body with
    | none => simp [URLHandler.CreateShortURL, Reply.status]
    | some req =>
      by_cases hne : req.OriginalURL = ""
      · simp [URLHandler.CreateShortURL, Reply.status, hne]
      · have hb : (req.OriginalURL == "") = false := by simpa using hne
        simp only [URLHandler.CreateShortURL, hb, Bool.false_eq_true, if_false, false_or,
          Option.some.injEq, exists_eq_left', hne, iff_false]
        rcases CreateShortURL env s req with ⟨r, s1⟩
        cases r <;> simp [Reply.status, StatusBadRequest, StatusInternalServerError, StatusCreated]
  · intro req hne h
    obtain ⟨e, he⟩ := CreateShortURL_fails_malformed env s req h
    rw [handler_of_service_error env s req e hne he]
    rfl
  · intro req hne hc hbad
    obtain ⟨e, he⟩ := CreateShortURL_fails_badCode env s req hc hbad
    rw [handler_of_service_error env s req e hne he]
    rfl
  · intro req code s1 hne hurl hcode hup hex
    rw [handler_of_service_error env s req _ hne
      (CreateShortURL_fails_conflict env s s1 req code hurl hcode hup hex)]
    rfl


theorem redirect_of_service_error (env : Env) (s : Sys) (code : String) (e : Err)
    (hne : code ≠ "") (h : (GetOriginalURL env s code).1 = .error e) :
    (URLHandler.RedirectToOriginal env s code).1 =
      .json StatusNotFound (.errorText "URL not found or expired") := by
  have hb : (code == "") = false := by simpa using hne
  unfold URLHandler.RedirectToOriginal
  simp only [hb, Bool.false_eq_true, if_false]
  rcases hc : GetOriginalURL env s code with ⟨r, s1⟩
  rw [hc] at h
  simp only at h
  subst h
  rfl

/-- C14, amended. For a code not served from the cache, when the store query
fails: `GetOriginalURL` returns `URL not found` wrapping the driver error, which
differs from the one wrapping `URL not found or expired`; the redirect endpoint
answers 404 with the fixed body `URL not found or expired`, as it does for every
error of `GetOriginalURL`; and `CreateShortURL` returns an error when the
existence check fails and when the insert fails. -/
theorem store_failure_surfacing (env : Env) (s : Sys) (code : String)
    (hne : code ≠ "")
    (hmiss : env.redisGetDown = true ∨ lookupKey env.now s.redis (urlKey code) = none)
    (hq : env.dbQueryDown = true) :
    (GetOriginalURL env s code).1 = .error (.urlNotFound (.driver .unavailable)) ∧
      Err.urlNotFound (.driver .unavailable) ≠ Err.urlNotFound .notFoundOrExpired ∧
      (URLHandler.RedirectToOriginal env s code).1 =
        .json StatusNotFound (.errorText "URL not found or expired") ∧
      (∀ e, (GetOriginalURL env s code).1 = .error e →
        (URLHandler.RedirectToOriginal env s code).1 =
          .json StatusNotFound (.errorText "URL not found or expired")) ∧
      (∀ (env2 : Env) (s2 s3 : Sys) (req : CreateURLRequest) (c : String),
        validateURL env2.parse req.OriginalURL = .ok () →
        determineCode env2 s2 req = (.ok c, s3) →
        (env2.dbExistsDown = true →
          (CreateShortURL env2 s2 req).1 = .error (.checkFailed .unavailable)) ∧
        (env2.dbExistsDown = false → s2.db.any (fun r => r.short_code == c) = false →
          env2.dbInsertErr = some .unavailable →
          (CreateShortURL env2 s2 req).1 = .error (.createFailed .unavailable))) := by
  have hres : (GetOriginalURL env s code).1 = .error (.urlNotFound (.driver .unavailable)) := by
    rw [(GetOriginalURL_miss_summary env s code hmiss).1]
    simp [storeAnswer, hq]
  refine ⟨hres, by decide, redirect_of_service_error env s code _ hne hres,
    fun e he => redirect_of_service_error env s code e hne he, ?_⟩
  intro env2 s2 s3 req c hurl hcode
  obtain ⟨hdb, -, -⟩ := determineCode_frame env2 s2 req
  rw [hcode] at hdb
  simp only at hdb
  constructor
  · intro hdown
    simp [CreateShortURL, hurl, hcode, shortCodeExists, hdown]
  · intro hup hfree hins
    have hany : s3.db.any (fun r => r.short_code == c) = false := by rw [hdb]; exact hfree
    simp [CreateShortURL, hurl, hcode, shortCodeExists, hup, hany, createURLInDB, hins]

/-- C15, amended. The per-page value handed to `ListURLs` is `per_page` itself when
it lies in 1..100 and 10 otherwise (below 1, above 100, or absent), so it always
lies in 1..100; the page is 1 when absent or below 1 and the client's page
otherwise, so it is always at least 1. -/
theorem list_pagination_args (pageQ perPageQ : QueryVal) :
    (∀ n : Int, 1 ≤ n → n ≤ 100 → (URLHandler.ListURLs_args pageQ (.number n)).2 = n) ∧
      (∀ n : Int, n < 1 ∨ 100 < n → (URLHandler.ListURLs_args pageQ (.number n)).2 = 10) ∧
      (URLHandler.ListURLs_args pageQ .absent).2 = 10 ∧
      (1 ≤ (URLHandler.ListURLs_args pageQ perPageQ).2 ∧
        (URLHandler.ListURLs_args pageQ perPageQ).2 ≤ 100) ∧
      (URLHandler.ListURLs_args .absent perPageQ).1 = 1 ∧
      (∀ n : Int, n < 1 → (URLHandler.ListURLs_args (.number n) perPageQ).1 = 1) ∧
      (∀ n : Int, 1 ≤ n → n ≤ 2 ^ 63 - 1 →
        (URLHandler.ListURLs_args (.number n) perPageQ).1 = n) ∧
      1 ≤ (URLHandler.ListURLs_args pageQ perPageQ).1 := by
  refine ⟨?_, ?_, ?_, ?_, ?_, ?_, ?_, ?_⟩
  · intro n h1 h2
    simp only [URLHandler.ListURLs_args, queryAtoi]
    have : max (-(2 ^ 63)) (min n (2 ^ 63 - 1)) = n := by omega
    simp only [this, Bool.or_eq_true, decide_eq_true_eq]
    rw [if_neg (by omega)]
  · intro n h
    simp only [URLHandler.ListURLs_args, queryAtoi, Bool.or_eq_true, decide_eq_true_eq]
    rw [if_pos (by omega)]
  · simp [URLHandler.ListURLs_args, queryAtoi]
  · simp only [URLHandler.ListURLs_args, Bool.or_eq_true, decide_eq_true_eq]
    split <;> omega
  · simp [URLHandler.ListURLs_args, queryAtoi]
  · intro n h
    simp only [URLHandler.ListURLs_args, queryAtoi]
    rw [if_pos (by omega)]
  · intro n h1 h2
    simp only [URLHandler.ListURLs_args, queryAtoi]
    have : max (-(2 ^ 63)) (min n (2 ^ 63 - 1)) = n := by omega
    simp only [this]
    rw [if_neg (by omega)]
  · simp only [URLHandler.ListURLs_args]
    split <;> omega

theorem determineCode_custom (env : Env) (s : Sys) (req : CreateURLRequest) (c : String)
    (hne : req.CustomCode ≠ "") (h : (determineCode env s req).1 = .ok c) :
    c = req.CustomCode := by
  have hne2 : (req.CustomCode == "") = false := by simpa using hne
  unfold determineCode at h
  simp only [hne2, Bool.false_eq_true, if_false] at h
  cases hv : validateShortCode req.CustomCode with
  | error e => simp [hv] at h
  | ok u =>
    simp only [hv] at h
    exact (Except.ok.inj h).symm

/-- C16. After a successful `CreateShortURL` the response carries the request's
original URL unchanged, the short URL `http://localhost:8080/` followed by the
short code, and the request's custom code whenever one was given; the store has
exactly one more record, with that code, that URL and the request's other fields. -/
theorem CreateShortURL_response (env : Env) (s s2 : Sys) (req : CreateURLRequest)
    (resp : CreateURLResponse) (h : CreateShortURL env s req = (.ok resp, s2)) :
    resp.OriginalURL = req.OriginalURL ∧
      resp.ShortURL = "http://localhost:8080/" ++ resp.ShortCode ∧
      (req.CustomCode ≠ "" → resp.ShortCode = req.CustomCode) ∧
      ∃ row, s2.db = s.db ++ [row] ∧ row.short_code = resp.ShortCode ∧
        row.original_url = req.OriginalURL ∧ row.title = req.Title ∧
        row.description = req.Description ∧ row.expires_at = req.ExpiresAt ∧
        row.is_active = true := by
  obtain ⟨hresp, hdet, -, hdb, -⟩ := CreateShortURL_ok_inv env s s2 req resp h
  refine ⟨?_, ?_, ?_, newRow env req resp.ShortCode, hdb, rfl, rfl, rfl, rfl, rfl, rfl⟩
  · rw [hresp]
  · rw [hresp]
  · intro hne
    exact determineCode_custom env s req _ hne hdet


/-! ## Lemmas on sequences of calls -/

theorem CreateShortURL_db_cases (env : Env) (s : Sys) (req : CreateURLRequest) :
    ((CreateShortURL env s req).2.db = s.db ∧ (CreateShortURL env s req).2.redis = s.redis) ∨
      ∃ code, s.db.any (fun r => r.short_code == code) = false ∧
        (CreateShortURL env s req).2.db = s.db ++ [newRow env req code] ∧
        (CreateShortURL env s req).2.redis =
          (if env.redisSetDown then s.redis
           else putKey s.redis (urlKey code) ⟨.str req.OriginalURL, some (env.now + urlTTL)⟩) := by
  rcases h : CreateShortURL env s req with ⟨r, s2⟩
  cases r with
  | error e =>
    left
    have := CreateShortURL_error_frame env s req e (by rw [h])
    rw [h] at this
    exact this
  | ok resp =>
    right
    obtain ⟨-, -, hfree, hdb, hredis⟩ := CreateShortURL_ok_inv env s s2 req resp h
    exact ⟨resp.ShortCode, hfree, hdb, hredis⟩

theorem uniqueCodes_append (db : List URLRow) (row : URLRow)
    (hu : uniqueCodes db) (hfree : db.any (fun r => r.short_code == row.short_code) = false) :
    uniqueCodes (db ++ [row]) := by
  unfold uniqueCodes at hu ⊢
  rw [List.map_append, List.nodup_append]
  refine ⟨hu, by simp, ?_⟩
  rw [List.disjoint_left]
  intro c hc hc2
  simp only [List.map_cons, List.map_nil, List.mem_singleton] at hc2
  obtain ⟨r, hr, hrc⟩ := List.mem_map.mp hc
  have := any_code_of_mem db row.short_code ⟨r, hr, hrc.trans hc2⟩
  rw [hfree] at this
  cases this

theorem step_db (s : Sys) (op : Op) :
    (∃ l, (step s op).db = s.db ++ l) ∧ (uniqueCodes s.db → uniqueCodes (step s op).db) := by
  cases op with
  | create env req =>
    simp only [step]
    rcases CreateShortURL_db_cases env s req with ⟨h, -⟩ | ⟨code, hfree, h, -⟩
    · rw [h]
      exact ⟨⟨[], by simp⟩, id⟩
    · rw [h]
      exact ⟨⟨_, rfl⟩, fun hu => uniqueCodes_append s.db (newRow env req code) hu hfree⟩
  | resolve env code =>
    simp only [step, GetOriginalURL_db]
    exact ⟨⟨[], by simp⟩, id⟩

theorem run_db (ops : List Op) (s : Sys) :
    (∃ l, (run s ops).db = s.db ++ l) ∧ (uniqueCodes s.db → uniqueCodes (run s ops).db) := by
  induction ops generalizing s with
  | nil => exact ⟨⟨[], by simp [run]⟩, id⟩
  | cons op ops ih =>
    obtain ⟨⟨l1, h1⟩, u1⟩ := step_db s op
    obtain ⟨⟨l2, h2⟩, u2⟩ := ih (step s op)
    have hrun : run s (op :: ops) = run (step s op) ops := rfl
    rw [hrun]
    exact ⟨⟨l1 ++ l2, by rw [h2, h1, List.append_assoc]⟩, fun hu => u2 (u1 hu)⟩

theorem cacheInv_step (s t : Sys) (hdb : ∃ l, t.db = s.db ++ l)
    (hredis : ∀ code e, t.redis.lookup (urlKey code) = some e →
      s.redis.lookup (urlKey code) = some e ∨
        ∃ v d r, e = ⟨.str v, some d⟩ ∧ r ∈ t.db ∧ r.short_code = code ∧ r.original_url = v ∧
          (d = r.created_at + urlTTL ∨ r.expires_at = none ∨
            ∃ x, r.expires_at = some x ∧ d < x + urlTTL))
    (h : cacheInv s) : cacheInv t := by
  intro code e he
  rcases hredis code e he with hold | hnew
  · obtain ⟨v, d, r, h1, h2, h3⟩ := h code e hold
    obtain ⟨l, hl⟩ := hdb
    exact ⟨v, d, r, h1, by rw [hl]; exact List.mem_append_left _ h2, h3⟩
  · exact hnew

theorem step_cacheInv (s : Sys) (op : Op) (h : cacheInv s) : cacheInv (step s op) := by
  refine cacheInv_step s (step s op) (step_db s op).1 ?_ h
  intro c e he
  cases op with
  | create env req =>
    simp only [step] at he ⊢
    rcases CreateShortURL_db_cases env s req with ⟨-, hr⟩ | ⟨code, -, hdb, hr⟩
    · left
      rw [hr] at he
      exact he
    · rw [hr] at he
      cases hset : env.redisSetDown with
      | true =>
        left
        simpa [hset] using he
      | false =>
        simp only [hset, Bool.false_eq_true, if_false] at he
        by_cases hc : c = code
        · right
          subst hc
          rw [lookup_putKey_same] at he
          refine ⟨req.OriginalURL, env.now + urlTTL, newRow env req c, (Option.some.inj he).symm,
            ?_, rfl, rfl, Or.inl rfl⟩
          rw [hdb]
          simp
        · left
          rw [lookup_putKey_other _ _ _ _ (fun hk => hc (urlKey_injective c code hk))] at he
          exact he
  | resolve env code =>
    simp only [step] at he ⊢
    rcases GetURL_cases env s code with hm | ⟨-, e1, v, -, hg⟩
    · rw [GetOriginalURL_miss env s code hm] at he
      cases hq : env.dbQueryDown with
      | true =>
        left
        simpa [hq, afterMiss, Sys.log] using he
      | false =>
        simp only [hq, Bool.false_eq_true, if_false] at he
        cases hf : s.db.find? (liveRow env.now code) with
        | none =>
          left
          simpa [hf, afterMiss, Sys.log] using he
        | some r =>
          simp only [hf] at he
          rw [(IncrementClickCount_frame env _ code).2.2 _ (urlKey_ne_clicksKey c code),
            (SetURL_frame env _ code r.original_url).2.2] at he
          have hmem := List.mem_of_find?_eq_some hf
          have hp := List.find?_some hf
          simp only [liveRow, Bool.and_eq_true, beq_iff_eq] at hp
          cases hset : env.redisSetDown with
          | true =>
            left
            simpa [hset, afterMiss, Sys.log] using he
          | false =>
            simp only [hset, Bool.false_eq_true, if_false] at he
            by_cases hc : c = code
            · right
              subst hc
              rw [lookup_putKey_same] at he
              refine ⟨r.original_url, env.now + urlTTL, r, (Option.some.inj he).symm,
                by rw [GetOriginalURL_db]; exact hmem, hp.1.1, rfl, ?_⟩
              right
              cases hx : r.expires_at with
              | none => exact Or.inl rfl
              | some x =>
                right
                refine ⟨x, rfl, ?_⟩
                have := hp.2
                rw [hx] at this
                simp only [gt_iff_lt, decide_eq_true_eq] at this
                exact Nat.add_lt_add_right this urlTTL
            · left
              rw [lookup_putKey_other _ _ _ _ (fun hk => hc (urlKey_injective c code hk))] at he
              simpa [afterMiss, Sys.log] using he
    · left
      rw [GetOriginalURL_hit env s _ code v hg,
        (IncrementClickCount_frame env _ code).2.2 _ (urlKey_ne_clicksKey c code)] at he
      simpa [Sys.log] using he

theorem run_cacheInv (ops : List Op) (s : Sys) (h : cacheInv s) : cacheInv (run s ops) := by
  induction ops generalizing s with
  | nil => exact h
  | cons op ops ih => exact ih (step s op) (step_cacheInv s op h)

theorem cacheInv_of_empty (s : Sys) (h : s.redis = []) : cacheInv s := by
  intro code e he
  rw [h] at he
  cases he


theorem lookupKey_some (now : Time) (kv : List (String × REntry)) (k : String) (e : REntry)
    (h : lookupKey now kv k = some e) : kv.lookup k = some e ∧ e.alive now = true := by
  unfold lookupKey at h
  cases hl : kv.lookup k with
  | none => simp [hl] at h
  | some e2 =>
    simp only [hl] at h
    split at h
    · rename_i ha
      cases h
      exact ⟨rfl, ha⟩
    · cases h

theorem row_eq_of_code (db : List URLRow) (hu : uniqueCodes db) (r r2 : URLRow)
    (h1 : r ∈ db) (h2 : r2 ∈ db) (hc : r.short_code = r2.short_code) : r = r2 :=
  List.inj_on_of_nodup_map hu h1 h2 hc

/-- C17. Starting from a store without duplicate codes, after any sequence of
`CreateShortURL` and `GetOriginalURL` calls the store has no duplicate codes,
and it is the initial store followed by new records: no existing record is
changed or removed. -/
theorem store_codes_unique (ops : List Op) (s : Sys) (hu : uniqueCodes s.db) :
    uniqueCodes (run s ops).db ∧ ∃ l, (run s ops).db = s.db ++ l :=
  ⟨(run_db ops s).2 hu, (run_db ops s).1⟩

/-- C18. Starting from an empty cache, after any sequence of `CreateShortURL` and
`GetOriginalURL` calls every entry `url:{code}` of the cache is a string equal
to the target of a store record with that code; and a failing `CreateShortURL`
or `GetOriginalURL` leaves the cache as it was. -/
theorem cache_projects_store (ops : List Op) (s : Sys) (hempty : s.redis = []) :
    (∀ code e, (run s ops).redis.lookup (urlKey code) = some e →
        ∃ v, e.val = .str v ∧
          ∃ r ∈ (run s ops).db, r.short_code = code ∧ r.original_url = v) ∧
      (∀ (t : Sys) (env : Env) (req : CreateURLRequest) (e : Err),
        (CreateShortURL env t req).1 = .error e → (CreateShortURL env t req).2.redis = t.redis) ∧
      (∀ (t : Sys) (env : Env) (code : String) (e : Err),
        (GetOriginalURL env t code).1 = .error e → (GetOriginalURL env t code).2.redis = t.redis) := by
  refine ⟨?_, fun t env req e h => (CreateShortURL_error_frame env t req e h).2,
    fun t env code e h => GetOriginalURL_error_frame env t code e h⟩
  intro code e he
  obtain ⟨v, d, r, h1, h2, h3, h4, -⟩ := run_cacheInv ops s (cacheInv_of_empty s hempty) code e he
  exact ⟨v, by rw [h1], r, h2, h3, h4⟩

/-- C19, amended. Starting from an empty cache and a store without duplicate
codes, after any sequence of calls: whenever `GetOriginalURL` returns a URL for
a code whose store record is expired at that moment, it returns that record's
target, and either `expires_at` lies less than 24 hours in the past or the
record was created less than 24 hours ago. -/
theorem staleness_bound (ops : List Op) (s : Sys) (hempty : s.redis = [])
    (hu : uniqueCodes s.db) (env : Env) (code u : String)
    (hres : (GetOriginalURL env (run s ops) code).1 = .ok u)
    (r : URLRow) (hr : r ∈ (run s ops).db) (hc : r.short_code = code)
    (t : Time) (ht : r.expires_at = some t) (hexp : t ≤ env.now) :
    r.original_url = u ∧ (env.now < t + urlTTL ∨ env.now < r.created_at + urlTTL) := by
  have hinv := run_cacheInv ops s (cacheInv_of_empty s hempty)
  have huniq := (run_db ops s).2 hu
  rcases GetURL_cases env (run s ops) code with hm | ⟨hup, e, v, hl, hg⟩
  · exfalso
    rw [(GetOriginalURL_miss_summary env (run s ops) code hm).1] at hres
    unfold storeAnswer at hres
    cases hq : env.dbQueryDown with
    | true => simp [hq] at hres
    | false =>
      simp only [hq, Bool.false_eq_true, if_false] at hres
      cases hf : (run s ops).db.find? (liveRow env.now code) with
      | none => simp [hf] at hres
      | some r2 =>
        have hmem := List.mem_of_find?_eq_some hf
        have hp := List.find?_some hf
        simp only [liveRow, Bool.and_eq_true, beq_iff_eq] at hp
        have heq := row_eq_of_code _ huniq r2 r hmem hr (hp.1.1.trans hc.symm)
        subst heq
        have := hp.2
        rw [ht] at this
        simp only [gt_iff_lt, decide_eq_true_eq] at this
        exact Nat.lt_irrefl _ (Nat.lt_of_lt_of_le this hexp)
  · obtain ⟨hraw, halive⟩ := lookupKey_some _ _ _ _ hl
    obtain ⟨v2, d, r2, he, hmem, hcode, hurl, hd⟩ := hinv code e hraw
    subst he
    have hnow : env.now < d := by simpa [REntry.alive] using halive
    have hg2 := GetURL_of_lookup env (run s ops) code v2 d hup hraw hnow
    rw [GetOriginalURL_hit env (run s ops) _ code v2 hg2] at hres
    have hv : v2 = u := Except.ok.inj hres
    have heq := row_eq_of_code _ huniq r2 r hmem hr (hcode.trans hc.symm)
    subst heq
    refine ⟨hurl.trans hv, ?_⟩
    rcases hd with hd | hd | ⟨x, hx, hd⟩
    · right
      rw [← hd]
      exact hnow
    · rw [ht] at hd
      cases hd
    · left
      rw [ht] at hx
      cases hx
      exact Nat.lt_trans hnow hd

/-! ## The later claims at concrete inputs -/

/-- C11 at a concrete input: resolving `live1` from the store creates its counter at 1. -/
theorem click_counter_once_per_resolve_witness :
    sampleEnv.redisIncrDown = false ∧
      (GetOriginalURL sampleEnv liveSys "live1").1 = .ok "https://example.com/y" ∧
      clickCount sampleEnv.now (GetOriginalURL sampleEnv liveSys "live1").2.redis "live1" =
        clickCount sampleEnv.now liveSys.redis "live1" + 1 ∧
      (∀ c, c ≠ "live1" →
        (GetOriginalURL sampleEnv liveSys "live1").2.redis.lookup (clicksKey c) =
          liveSys.redis.lookup (clicksKey c)) ∧
      (∀ c, c ≠ "live1" →
        (GetOriginalURL sampleEnv liveSys "live1").2.redis.lookup (urlKey c) =
          liveSys.redis.lookup (urlKey c)) :=
  ⟨by decide, by decide,
    (click_counter_once_per_resolve sampleEnv liveSys "live1" (by decide)
      (fun e he => by simp [lookupKey, liveSys] at he)).1 "https://example.com/y" (by decide)⟩

/-- C12 as stated fails: with the code free at the check and a duplicate-key
violation at the insert, the error is not the one of the pre-check. -/
theorem CreateShortURL_duplicate_on_insert_differs :
    (CreateShortURL raceEnv emptySys promoReq).1 = .error (.createFailed .duplicateKey) ∧
      (CreateShortURL sampleEnv takenSys promoReq).1 = .error .alreadyExists ∧
      (CreateShortURL raceEnv emptySys promoReq).1 ≠
        (CreateShortURL sampleEnv takenSys promoReq).1 := by
  decide

/-- C12, amended, at a concrete input. -/
theorem CreateShortURL_duplicate_on_insert_witness :
    validateURL raceEnv.parse promoReq.OriginalURL = .ok () ∧
      determineCode raceEnv emptySys promoReq = (.ok "promo1", emptySys) ∧
      (CreateShortURL raceEnv emptySys promoReq).1 = .error (.createFailed .duplicateKey) ∧
      Err.createFailed .duplicateKey ≠ Err.alreadyExists ∧
      (CreateShortURL raceEnv emptySys promoReq).2.db = emptySys.db ∧
      (CreateShortURL raceEnv emptySys promoReq).2.redis = emptySys.redis :=
  ⟨by decide, by decide,
    CreateShortURL_duplicate_on_insert raceEnv emptySys emptySys promoReq "promo1" (by decide)
      (by decide) (by decide) (by decide) (by decide)⟩

/-- C13 as stated fails: a URL without a scheme, a two-character custom code and
a taken code are each answered 500. -/
theorem shorten_status_is_500 :
    (URLHandler.CreateShortURL sampleEnv emptySys (some noSchemeReq)).1.status = 500 ∧
      (URLHandler.CreateShortURL sampleEnv emptySys (some shortCodeReq)).1.status = 500 ∧
      (URLHandler.CreateShortURL sampleEnv takenSys (some promoReq)).1.status = 500 := by
  decide

/-- C13, amended, at a concrete input: a URL without a scheme. -/
theorem shorten_status_witness :
    noSchemeReq.OriginalURL ≠ "" ∧
      sampleEnv.parse noSchemeReq.OriginalURL = some ⟨"", ""⟩ ∧
      (URLHandler.CreateShortURL sampleEnv emptySys (some noSchemeReq)).1.status =
        StatusInternalServerError :=
  ⟨by decide, by decide,
    (shorten_status sampleEnv emptySys).2.2.1 noSchemeReq (by decide)
      (Or.inr ⟨⟨"", ""⟩, by decide, Or.inl rfl⟩)⟩

/-- C14 as stated fails: with the store query failing, the redirect endpoint
gives the same 404 answer as for a link that does not exist. -/
theorem redirect_store_failure_is_404 :
    (GetOriginalURL storeDownEnv liveSys "live1").1 =
        .error (.urlNotFound (.driver .unavailable)) ∧
      (URLHandler.RedirectToOriginal storeDownEnv liveSys "live1").1.status = 404 ∧
      (URLHandler.RedirectToOriginal storeDownEnv liveSys "live1").1 =
        (URLHandler.RedirectToOriginal sampleEnv emptySys "live1").1 := by
  decide

/-- C14, amended, at a concrete input. -/
theorem store_failure_surfacing_witness :
    storeDownEnv.dbQueryDown = true ∧
      lookupKey storeDownEnv.now liveSys.redis (urlKey "live1") = none ∧
      (GetOriginalURL storeDownEnv liveSys "live1").1 =
        .error (.urlNotFound (.driver .unavailable)) ∧
      (URLHandler.RedirectToOriginal storeDownEnv liveSys "live1").1 =
        .json StatusNotFound (.errorText "URL not found or expired") :=
  have h := store_failure_surfacing storeDownEnv liveSys "live1" (by decide)
    (Or.inr (by decide)) (by decide)
  ⟨by decide, by decide, h.1, h.2.2.1⟩

/-- C15 as stated fails: 500 becomes 10, not 100, and 0 becomes 10, not 1. -/
theorem list_pagination_not_clamped :
    (URLHandler.ListURLs_args .absent (.number 500)).2 = 10 ∧
      min (max (500 : Int) 1) 100 = 100 ∧
      (URLHandler.ListURLs_args .absent (.number 0)).2 = 10 ∧
      min (max (0 : Int) 1) 100 = 1 := by
  decide

/-- C15, amended, at a concrete input: 500 is replaced by 10, 25 is kept. -/
theorem list_pagination_args_witness :
    (URLHandler.ListURLs_args .absent (.number 500)).2 = 10 ∧
      (URLHandler.ListURLs_args .absent (.number 25)).2 = 25 :=
  ⟨(list_pagination_args .absent .absent).2.1 500 (Or.inr (by decide)),
    (list_pagination_args .absent .absent).1 25 (by decide) (by decide)⟩

/-- C16 at the example scenario. -/
theorem CreateShortURL_response_witness :
    CreateShortURL sampleEnv emptySys promoReq =
        (.ok ⟨"promo1", "https://example.com/a", "http://localhost:8080/promo1", 10⟩,
          (CreateShortURL sampleEnv emptySys promoReq).2) ∧
      (∃ row, (CreateShortURL sampleEnv emptySys promoReq).2.db = emptySys.db ++ [row] ∧
        row.short_code = "promo1" ∧ row.original_url = "https://example.com/a" ∧
        row.title = "" ∧ row.description = "" ∧ row.expires_at = none ∧
        row.is_active = true) :=
  ⟨by decide,
    (CreateShortURL_response sampleEnv emptySys (CreateShortURL sampleEnv emptySys promoReq).2
      promoReq ⟨"promo1", "https://example.com/a", "http://localhost:8080/promo1", 10⟩
      (by decide)).2.2.2⟩

/-- C17 at the example scenario: create, resolve, create again. -/
theorem store_codes_unique_witness :
    uniqueCodes emptySys.db ∧ uniqueCodes (run emptySys sampleOps).db ∧
      ∃ l, (run emptySys sampleOps).db = emptySys.db ++ l :=
  ⟨List.nodup_nil, store_codes_unique sampleOps emptySys List.nodup_nil⟩

/-- C18 at the example scenario: the entry `url:promo1` and its store record. -/
theorem cache_projects_store_witness :
    emptySys.redis = [] ∧
      (run emptySys sampleOps).redis.lookup (urlKey "promo1") =
        some ⟨.str "https://example.com/a", some (10 + urlTTL)⟩ ∧
      ∃ v, RVal.str "https://example.com/a" = .str v ∧
        ∃ r ∈ (run emptySys sampleOps).db, r.short_code = "promo1" ∧ r.original_url = v :=
  ⟨rfl, by decide,
    (cache_projects_store sampleOps emptySys rfl).1 "promo1"
      ⟨.str "https://example.com/a", some (10 + urlTTL)⟩ (by decide)⟩

/-- C19 as stated fails: a link created at hour 48 with `expires_at` at time 5
resolves from the cache at hour 48, more than 24 hours after its expiry. -/
theorem staleness_exceeds_ttl :
    (run emptySys [.create lateEnv pastExpiryReq]).db =
        [⟨"promo1", "https://example.com/a", "", "", 2 * urlTTL, true, some 5⟩] ∧
      (GetOriginalURL lateEnv (run emptySys [.create lateEnv pastExpiryReq]) "promo1").1 =
        .ok "https://example.com/a" ∧
      5 + urlTTL ≤ lateEnv.now := by
  decide

/-- C19, amended, at the same input: the record was created less than 24 hours ago. -/
theorem staleness_bound_witness :
    emptySys.redis = [] ∧ uniqueCodes emptySys.db ∧
      (GetOriginalURL lateEnv (run emptySys [.create lateEnv pastExpiryReq]) "promo1").1 =
        .ok "https://example.com/a" ∧
      (lateEnv.now < 5 + urlTTL ∨ lateEnv.now < 2 * urlTTL + urlTTL) :=
  ⟨rfl, List.nodup_nil, by decide,
    (staleness_bound [.create lateEnv pastExpiryReq] emptySys rfl List.nodup_nil lateEnv "promo1"
      "https://example.com/a" (by decide)
      ⟨"promo1", "https://example.com/a", "", "", 2 * urlTTL, true, some 5⟩
      (by decide) rfl 5 rfl (by decide)).2⟩

/-- C20 at the failing input: an active link, absent from the cache, whose
`expires_at` equals the current time. The store query finds no row, so
`GetOriginalURL` fails, while `URL.IsExpired` is false and `URL.IsActive` true. -/
theorem expiry_boundary_disagreement :
    sampleEnv.now = 10 ∧
      boundarySys.db = [⟨"edge1", "https://example.com/e", "", "", 1, true, some 10⟩] ∧
      (GetOriginalURL sampleEnv boundarySys "edge1").1 =
        .error (.urlNotFound .notFoundOrExpired) ∧
      IsExpired sampleEnv.now ⟨"edge1", "https://example.com/e", "", "", 1, true, some 10⟩ =
        false ∧
      IsActive sampleEnv.now ⟨"edge1", "https://example.com/e", "", "", 1, true, some 10⟩ =
        true := by
  decide


/-! ## The code alphabet and the listing arithmetic -/

set_option maxRecDepth 100000 in
theorem charsetAt_eq (b : Fin 256) :
    charsetAt b = charset[b.val % 62]? ∧
      charsetAt b = some (charset.getD (b.val % 62) 'a') := by
  revert b
  decide

theorem encodeBytes_eq_map (bs : List (Fin 256)) :
    encodeBytes bs = some (bs.map (fun b => charset.getD (b.val % 62) 'a')) := by
  induction bs with
  | nil => rfl
  | cons b bs ih => simp [encodeBytes, (charsetAt_eq b).2, ih]

set_option maxRecDepth 1000000 in
set_option maxHeartbeats 4000000 in
theorem preimages_table :
    charset.map preimages = List.replicate 8 5 ++ List.replicate 54 4 := by
  decide

theorem preimages_four_or_five (c : Char) (h : c ∈ charset) :
    preimages c = 4 ∨ preimages c = 5 := by
  have hm : preimages c ∈ charset.map preimages := List.mem_map.mpr ⟨c, h, rfl⟩
  rw [preimages_table, List.mem_append] at hm
  rcases hm with hm | hm
  · exact Or.inr (List.eq_of_mem_replicate hm)
  · exact Or.inl (List.eq_of_mem_replicate hm)

set_option maxRecDepth 100000 in
theorem charset_layout :
    charset = "abcdefghijklmnopqrstuvwxyz".toList ++ "ABCDEFGHIJKLMNOPQRSTUVWXYZ".toList ++
        "0123456789".toList ∧
      charset.length = 62 ∧ charset.Nodup ∧ charset.take 8 = "abcdefgh".toList := by
  decide

set_option maxRecDepth 100000 in
theorem preimages_samples : preimages 'a' = 5 ∧ preimages '9' = 4 := by
  decide

/-- C21. The alphabet is a-z, A-Z, 0-9 in that order, 62 distinct characters;
`generateShortCode` rejects no byte and maps each byte `b` to `alphabet[b % 62]`;
over the 256 byte values each of the first 8 characters (a to h) has 5 preimages
and each of the other 54 has 4, so every character is reachable and no character
is more than one preimage ahead of another. -/
theorem generateShortCode_modulo_bias :
    charset = "abcdefghijklmnopqrstuvwxyz".toList ++ "ABCDEFGHIJKLMNOPQRSTUVWXYZ".toList ++
        "0123456789".toList ∧
      charset.length = 62 ∧ charset.Nodup ∧
      (∀ b : Fin 256, charsetAt b = charset[b.val % 62]? ∧ (charsetAt b).isSome = true) ∧
      (∀ (env : Env) (s : Sys) (r : Fin 6 → Fin 256),
        (generateShortCode { env with rand := some r } s).1 =
          .ok (String.mk ((bufferOf r).map (fun b => charset.getD (b.val % 62) 'a')))) ∧
      charset.take 8 = "abcdefgh".toList ∧
      charset.map preimages = List.replicate 8 5 ++ List.replicate 54 4 ∧
      (∀ c ∈ charset, 0 < preimages c) ∧
      (∀ c ∈ charset, ∀ d ∈ charset, preimages c ≤ preimages d + 1) := by
  refine ⟨charset_layout.1, charset_layout.2.1, charset_layout.2.2.1, ?_, ?_,
    charset_layout.2.2.2, preimages_table, ?_, ?_⟩
  · intro b
    obtain ⟨h1, h2⟩ := charsetAt_eq b
    exact ⟨h1, by rw [h2]; rfl⟩
  · intro env s r
    simp [generateShortCode, encodeBytes_eq_map]
  · intro c hc
    rcases preimages_four_or_five c hc with h | h <;> omega
  · intro c hc d hd
    rcases preimages_four_or_five c hc with h | h <;>
      rcases preimages_four_or_five d hd with h2 | h2 <;> omega

/-- C21 at concrete inputs: `a` has 5 preimages, `9` has 4. -/
theorem generateShortCode_modulo_bias_witness :
    'a' ∈ charset ∧ '9' ∈ charset ∧ preimages 'a' = 5 ∧ preimages '9' = 4 ∧
      0 < preimages '9' ∧ preimages 'a' ≤ preimages '9' + 1 :=
  ⟨by decide, by decide, preimages_samples.1, preimages_samples.2,
    generateShortCode_modulo_bias.2.2.2.2.2.2.2.1 '9' (by decide),
    generateShortCode_modulo_bias.2.2.2.2.2.2.2.2 'a' (by decide) '9' (by decide)⟩

/-- C22 at the failing input `page=9223372036854775807` with `per_page` absent:
the handler passes the page on, `(page - 1) * perPage` wraps around to -20, the
store rejects the negative `OFFSET`, and the listing fails. -/
theorem list_offset_overflow :
    URLHandler.ListURLs_args (.number 9223372036854775807) .absent =
        (9223372036854775807, 10) ∧
      offsetOf 9223372036854775807 10 = -20 ∧
      URLHandler.ListURLs none none [] (.number 9223372036854775807) .absent =
        .error .negativeOffset := by
  decide


theorem wrap64_id (x : Int) (h1 : -(2 ^ 63) ≤ x) (h2 : x < 2 ^ 63) : wrap64 x = x := by
  unfold wrap64
  omega

theorem totalPagesOf_ceil (total perPage : Int) (h0 : 0 ≤ total) (h1 : 1 ≤ perPage)
    (h : total + perPage < 2 ^ 63) :
    total ≤ totalPagesOf total perPage * perPage ∧
      totalPagesOf total perPage * perPage < total + perPage ∧
      (∀ n : Int, total ≤ n * perPage → totalPagesOf total perPage ≤ n) ∧
      (total = 0 → totalPagesOf total perPage = 0) := by
  have hp : (0 : Int) < perPage := by omega
  have hx : 0 ≤ total + perPage - 1 := by omega
  have e1 : wrap64 (total + perPage) = total + perPage := wrap64_id _ (by omega) h
  have e2 : wrap64 (total + perPage - 1) = total + perPage - 1 := wrap64_id _ (by omega) (by omega)
  have e3 : Int.tdiv (total + perPage - 1) perPage = (total + perPage - 1) / perPage :=
    Int.tdiv_eq_ediv hx (by omega)
  have q0 : 0 ≤ (total + perPage - 1) / perPage := Int.ediv_nonneg hx (by omega)
  have qle : (total + perPage - 1) / perPage * perPage ≤ total + perPage - 1 :=
    Int.ediv_mul_le _ (by omega)
  have qlt : total + perPage - 1 < ((total + perPage - 1) / perPage + 1) * perPage :=
    Int.lt_ediv_add_one_mul_self _ hp
  have qx : (total + perPage - 1) / perPage ≤ total + perPage - 1 := by
    have : (total + perPage - 1) / perPage * 1 ≤ (total + perPage - 1) / perPage * perPage :=
      Int.mul_le_mul_of_nonneg_left h1 q0
    omega
  have e4 : totalPagesOf total perPage = (total + perPage - 1) / perPage := by
    unfold totalPagesOf
    rw [e1, e2, e3]
    exact wrap64_id _ (by omega) (by omega)
  rw [e4]
  generalize (total + perPage - 1) / perPage = q at *
  have hexp : (q + 1) * perPage = q * perPage + perPage := by ring
  refine ⟨by omega, by omega, ?_, ?_⟩
  · intro n hn
    by_contra hcon
    have h2 : n + 1 ≤ q := by omega
    have h3 : (n + 1) * perPage ≤ q * perPage := Int.mul_le_mul_of_nonneg_right h2 (by omega)
    have h4 : (n + 1) * perPage = n * perPage + perPage := by ring
    omega
  · intro ht
    by_contra hcon
    have h2 : 1 ≤ q := by omega
    have h3 : 1 * perPage ≤ q * perPage := Int.mul_le_mul_of_nonneg_right h2 (by omega)
    omega

theorem offsetOf_exact (page perPage : Int) (h1 : 1 ≤ page) (hp : 0 ≤ perPage)
    (hpage : page < 2 ^ 63) (h : (page - 1) * perPage < 2 ^ 63) :
    offsetOf page perPage = (page - 1) * perPage ∧ 0 ≤ offsetOf page perPage := by
  have e1 : wrap64 (page - 1) = page - 1 := wrap64_id _ (by omega) (by omega)
  have h0 : 0 ≤ (page - 1) * perPage := Int.mul_nonneg (by omega) hp
  have e2 : offsetOf page perPage = (page - 1) * perPage := by
    unfold offsetOf
    rw [e1]
    exact wrap64_id _ (by omega) h
  exact ⟨e2, by rw [e2]; exact h0⟩

theorem ListURLs_args_range (pageQ perPageQ : QueryVal) :
    1 ≤ (URLHandler.ListURLs_args pageQ perPageQ).1 ∧
      (URLHandler.ListURLs_args pageQ perPageQ).1 < 2 ^ 63 ∧
      1 ≤ (URLHandler.ListURLs_args pageQ perPageQ).2 ∧
      (URLHandler.ListURLs_args pageQ perPageQ).2 ≤ 100 := by
  have hq : queryAtoi pageQ 1 < 2 ^ 63 := by
    cases pageQ <;> simp only [queryAtoi] <;> omega
  simp only [URLHandler.ListURLs_args, Bool.or_eq_true, decide_eq_true_eq]
  refine ⟨?_, ?_, ?_, ?_⟩ <;> split <;> omega

theorem ListURLs_never_divides_by_zero (countErr queryErr : Option DBErr) (db : List URLRow)
    (pageQ perPageQ : QueryVal) :
    URLHandler.ListURLs countErr queryErr db pageQ perPageQ ≠ .error .divideByZero ∧
      URLHandler.ListURLs countErr queryErr db pageQ perPageQ ≠ .error .negativeLimit := by
  obtain ⟨-, -, h1, -⟩ := ListURLs_args_range pageQ perPageQ
  unfold URLHandler.ListURLs ListURLs
  generalize (URLHandler.ListURLs_args pageQ perPageQ).2 = pp at *
  generalize (URLHandler.ListURLs_args pageQ perPageQ).1 = pg at *
  cases countErr with
  | some e => exact ⟨by simp, by simp⟩
  | none =>
    cases queryErr with
    | some e => exact ⟨by simp, by simp⟩
    | none =>
      have hn : ¬ pp < 0 := by omega
      have hz : ¬ pp = 0 := by omega
      simp only [hn, hz, if_false]
      split <;> exact ⟨by simp, by simp⟩

end ScaleLink
